import Mathlib

/-!
Verification of the electroplating simulation core
(`client/src/main.tsx`).  The simulation state machine — particles,
drag resolution, transition rules and the mass ledger — is embedded
shallowly: coordinates and masses are rationals (the source uses JS
numbers; none of the verified properties depend on floating-point
rounding), particle ids are strings built exactly as in the source
(`` `ion-${Date.now()}` `` etc., with the timestamp an explicit
parameter), and each React event handler becomes a pure function on an
explicit state record.  The pairing `useEffect` runs after every
registry mutation, which the `step` function reproduces by composing
every mutating handler with `pairingCheck`.
-/

attribute [local semireducible] Rat.add Rat.mul Rat.inv Rat.sub Rat.ofScientific

set_option maxRecDepth 100000

namespace ElectroPlate

/-- A 2-D point in the logical (SVG viewBox) coordinate space. -/
structure Point where
  x : ℚ
  y : ℚ
deriving DecidableEq, Repr

/-- A DOMRect-like rectangle (as produced by getBoundingClientRect). -/
structure Rect where
  left : ℚ
  right : ℚ
  top : ℚ
  bottom : ℚ
deriving DecidableEq, Repr

/-- The SVG element's bounding rectangle: origin plus size, used by the
drag handlers to map client coordinates into the 1000 x 600 viewBox. -/
structure SvgRect where
  left : ℚ
  top : ℚ
  width : ℚ
  height : ℚ
deriving DecidableEq, Repr

/-- Source `getPointOnPath` (main.tsx:294): for `progress ≤ 0` the first
waypoint, for `progress ≥ 1` the last; otherwise linear interpolation on
the parametric segment `⌊progress·(n-1)⌋`.  Out-of-range indexing, which
in the source would read `undefined`, is modelled with list defaults;
every caller in the source guards `points` nonempty. -/
def getPointOnPath (points : List Point) (progress : ℚ) : Point :=
  if progress ≤ 0 then points.headD ⟨0, 0⟩
  else if 1 ≤ progress then points.getLastD ⟨0, 0⟩
  else
    let totalSegments : ℕ := points.length - 1
    let segmentProgress : ℚ := progress * totalSegments
    let segmentIndex : ℕ := (⌊segmentProgress⌋).toNat
    let localProgress : ℚ := segmentProgress - segmentIndex
    let startPoint := points.getD (min segmentIndex (points.length - 1)) ⟨0, 0⟩
    let endPoint := points.getD (min (segmentIndex + 1) (points.length - 1)) ⟨0, 0⟩
    ⟨startPoint.x + (endPoint.x - startPoint.x) * localProgress,
     startPoint.y + (endPoint.y - startPoint.y) * localProgress⟩

/-- The candidate progress values scanned by the drag resolver: the loop
`for (let p = 0; p <= 1; p += 0.01)` of main.tsx:321, i.e. the 101
uniform samples k/100 for k = 0..100. -/
def dragSamples : List ℚ := (List.range 101).map (fun k => (k : ℚ) / 100)

/-- Source `getProgressFromDrag` (main.tsx:312): scan `dragSamples` for
the candidate closest to the drag point (strict improvement, so the
earliest minimiser wins, exactly as in the source loop), then return
`max currentProgress bestProgress`.  The source compares Euclidean
distances; we compare squared distances, which orders points
identically, so the scan selects the same candidate. -/
def getProgressFromDrag (points : List Point) (dragX dragY currentProgress : ℚ) : ℚ :=
  let scan := dragSamples.foldl
    (fun (acc : Option ℚ × ℚ) p =>
      let pt := getPointOnPath points p
      let d := (pt.x - dragX) ^ 2 + (pt.y - dragY) ^ 2
      match acc.1 with
      | none => (some d, p)
      | some m => if d < m then (some d, p) else acc)
    ((none : Option ℚ), currentProgress)
  max currentProgress scan.2

/-- Particle status (main.tsx:280). -/
inductive PStatus where
  | active
  | waiting
  | plated
deriving DecidableEq, Repr

/-- Particle type tag (main.tsx:272). -/
inductive PType where
  | ion
  | anode_electron
  | cathode_electron
deriving DecidableEq, Repr

/-- Electron segment (main.tsx:273). -/
inductive Segment where
  | anode_wire
  | cathode_wire
deriving DecidableEq, Repr

/-- Source `Particle` interface (main.tsx:275): `segment` and `progress`
are optional fields, present only on electrons. -/
structure Particle where
  id : String
  type : PType
  x : ℚ
  y : ℚ
  status : PStatus
  segment : Option Segment := none
  progress : Option ℚ := none
deriving DecidableEq, Repr

def ANODE_START_MASS : ℚ := 50

def CATHODE_START_MASS : ℚ := 25

def MASS_PER_UNIT : ℚ := 5

def TOTAL_PLATING_GOAL : ℕ := 6

/-- Ion id as built at main.tsx:505: `` `ion-${Date.now()}` ``. -/
def mkIonId (now : ℕ) : String := "ion-" ++ toString now

/-- Anode-electron id as built at main.tsx:514: `` `ae-${Date.now()}` ``. -/
def mkAeId (now : ℕ) : String := "ae-" ++ toString now

/-- Cathode-electron id as built at main.tsx:623: `` `ce-${Date.now()}` ``. -/
def mkCeId (now : ℕ) : String := "ce-" ++ toString now

/-- The mutable React state of `ElectroplatingGame` that constitutes the
simulation core (main.tsx:343-351, 539). -/
structure SimState where
  anodeMass : ℚ
  cathodeMass : ℚ
  ions : List Particle
  electrons : List Particle
  platedCount : ℕ
  showSuccess : Bool
  isAnodeConnected : Bool
  isCathodeConnected : Bool
  ionResetKey : ℕ
deriving DecidableEq, Repr

/-- Initial state (useState initialisers, main.tsx:343-351). -/
def initState : SimState :=
  { anodeMass := ANODE_START_MASS
    cathodeMass := CATHODE_START_MASS
    ions := []
    electrons := []
    platedCount := 0
    showSuccess := false
    isAnodeConnected := false
    isCathodeConnected := false
    ionResetKey := 0 }

def isActive (p : Particle) : Bool := p.status == PStatus.active

def isWaiting (p : Particle) : Bool := p.status == PStatus.waiting

/-- Count of active particles, ions plus electrons (main.tsx:490). -/
def activeCount (s : SimState) : ℕ :=
  (s.ions.filter isActive).length + (s.electrons.filter isActive).length

/-- The recoverable conditions a spawn attempt can signal (spec section 7;
surfaced as toasts at main.tsx:470-500). -/
inductive SpawnOutcome where
  | ok
  | circuitNotComplete
  | anodeDepleted
  | capacityExceeded
deriving DecidableEq, Repr

/-- Source `spawnIon` (main.tsx:469-526).  Checks, in order: circuit
complete, anode mass above the depletion threshold 10, active-particle
count below 5.  On success appends one active ion and one active
anode-wire electron and decrements the anode mass by `MASS_PER_UNIT`. -/
def spawnIon (anodeWirePoints : List Point) (now : ℕ) (s : SimState) :
    SpawnOutcome × SimState :=
  if s.isAnodeConnected = false ∨ s.isCathodeConnected = false then
    (SpawnOutcome.circuitNotComplete, s)
  else if s.anodeMass ≤ 10 then
    (SpawnOutcome.anodeDepleted, s)
  else if 5 ≤ activeCount s then
    (SpawnOutcome.capacityExceeded, s)
  else
    let newIon : Particle :=
      { id := mkIonId now, type := PType.ion, x := 0, y := 0, status := PStatus.active }
    let startPoint := anodeWirePoints.headD ⟨0, 0⟩
    let newAnodeElectron : Particle :=
      { id := mkAeId now, type := PType.anode_electron
        x := startPoint.x, y := startPoint.y, status := PStatus.active
        segment := some Segment.anode_wire, progress := some 0 }
    (SpawnOutcome.ok,
      { s with
          ions := s.ions ++ [newIon]
          electrons := s.electrons ++ [newAnodeElectron]
          anodeMass := s.anodeMass - MASS_PER_UNIT })

/-- Source `getElectrolyteBounds` (main.tsx:528): insets the beaker
rectangle by the fixed margins; `none` when the beaker ref is absent. -/
def getElectrolyteBounds (beakerRect : Option Rect) : Option Rect :=
  beakerRect.map (fun b =>
    { left := b.left + 20, right := b.right - 20, top := b.top + 60, bottom := b.bottom - 20 })

/-- Test of an optional rectangle, false when absent — the shape of the
source's `rect && condition` guards. -/
def optTest {α : Type} (f : α → Bool) : Option α → Bool
  | some a => f a
  | none => false

/-- The out-of-bounds test of main.tsx:547-552 (strict inequalities). -/
def outsideRect (r : Rect) (p : Point) : Bool :=
  decide (p.x < r.left) || decide (p.x > r.right) || decide (p.y < r.top) || decide (p.y > r.bottom)

/-- The cathode-hit test of main.tsx:564-568 (inclusive inequalities). -/
def insideRect (r : Rect) (p : Point) : Bool :=
  decide (r.left ≤ p.x) && decide (p.x ≤ r.right) && decide (r.top ≤ p.y) && decide (p.y ≤ r.bottom)

/-- Outcomes of an ion drop, matching the branches of
`handleIonDragEnd` (out-of-bounds reset, successful deposition,
rejection for want of a waiting electron, or a drop elsewhere in the
solution which the handler ignores). -/
inductive IonDropOutcome where
  | outOfBounds
  | accepted
  | noWaitingElectron
  | ignored
deriving DecidableEq, Repr

/-- The per-drop environment: wire paths, the SVG rect used for
coordinate mapping, and the beaker/cathode rectangles.  In the source
these come from refs and layout effects; the core treats them as an
external geometry provider. -/
structure Env where
  anodeWirePoints : List Point
  cathodeWirePoints : List Point
  svgRect : Option SvgRect
  beakerRect : Option Rect
  cathodeRect : Option Rect
deriving DecidableEq, Repr

/-- Source `handleIonDragEnd` (main.tsx:541-587).  Out-of-bounds drops
bump the presentation reset key (the "return to origin" mechanism) and
change nothing else; drops on the cathode succeed only when a waiting
electron exists; all other drops leave the state unchanged. -/
def handleIonDragEnd (env : Env) (id : String) (dropPoint : Point) (s : SimState) :
    IonDropOutcome × SimState :=
  let bounds := getElectrolyteBounds env.beakerRect
  let hasWaitingElectron := s.electrons.any isWaiting
  if optTest (fun b => outsideRect b dropPoint) bounds then
    (IonDropOutcome.outOfBounds, { s with ionResetKey := s.ionResetKey + 1 })
  else if optTest (fun c => insideRect c dropPoint) env.cathodeRect && hasWaitingElectron then
    (IonDropOutcome.accepted,
      { s with ions := s.ions.map (fun p =>
          if p.id == id then { p with status := PStatus.waiting } else p) })
  else if optTest (fun c => insideRect c dropPoint) env.cathodeRect && !hasWaitingElectron then
    (IonDropOutcome.noWaitingElectron, s)
  else
    (IonDropOutcome.ignored, s)

/-- Source `handleElectronDrag` (main.tsx:589-612).  Maps the client
point into viewBox coordinates, then updates the dragged electron's
progress through `getProgressFromDrag` against its current segment's
path; a missing SVG rect or an empty path is a no-op. -/
def handleElectronDrag (env : Env) (id : String) (clientPoint : Point) (s : SimState) :
    SimState :=
  match env.svgRect with
  | none => s
  | some r =>
    let svgX := (clientPoint.x - r.left) * (1000 / r.width)
    let svgY := (clientPoint.y - r.top) * (600 / r.height)
    { s with electrons := s.electrons.map (fun electron =>
        if electron.id != id then electron
        else
          let points := if electron.segment == some Segment.anode_wire then
              env.anodeWirePoints else env.cathodeWirePoints
          if points.length == 0 then electron
          else
            let newProgress := getProgressFromDrag points svgX svgY (electron.progress.getD 0)
            let newPos := getPointOnPath points newProgress
            { electron with x := newPos.x, y := newPos.y, progress := some newProgress }) }

/-- Source `handleElectronDragEnd` (main.tsx:614-652), the
`completeElectronDrag` operation of the spec: hand-off at the battery
for anode-wire electrons at progress ≥ 0.95 (remove, insert a fresh
cathode-wire electron), transition to `waiting` with progress clamped
to 1 for cathode-wire electrons at progress ≥ 0.95, otherwise no-op. -/
def handleElectronDragEnd (env : Env) (now : ℕ) (id : String) (s : SimState) : SimState :=
  match s.electrons.find? (fun e => e.id == id) with
  | none => s
  | some electron =>
    if electron.segment = some Segment.anode_wire ∧ (0.95 : ℚ) ≤ electron.progress.getD 0 then
      let filtered := s.electrons.filter (fun e => e.id != id)
      let startPoint := env.cathodeWirePoints.headD ⟨0, 0⟩
      let newCathodeElectron : Particle :=
        { id := mkCeId now, type := PType.cathode_electron
          x := startPoint.x, y := startPoint.y, status := PStatus.active
          segment := some Segment.cathode_wire, progress := some 0 }
      { s with electrons := filtered ++ [newCathodeElectron] }
    else if electron.segment = some Segment.cathode_wire ∧ (0.95 : ℚ) ≤ electron.progress.getD 0 then
      { s with electrons := s.electrons.map (fun e =>
          if e.id == id then { e with status := PStatus.waiting, progress := some 1 } else e) }
    else s

/-- The `waitingIons` const of the pairing effect (main.tsx:655). -/
def waitingIons (s : SimState) : List Particle := s.ions.filter isWaiting

/-- The `waitingElectrons` const of the pairing effect (main.tsx:656). -/
def waitingElectrons (s : SimState) : List Particle := s.electrons.filter isWaiting

/-- The `pairs` const of the pairing effect (main.tsx:659). -/
def nPairs (s : SimState) : ℕ := min (waitingIons s).length (waitingElectrons s).length

/-- The `usedIonIds` const of the pairing effect (main.tsx:662). -/
def usedIonIds (s : SimState) : List String :=
  ((waitingIons s).take (nPairs s)).map Particle.id

/-- The `usedElectronIds` const of the pairing effect (main.tsx:663). -/
def usedElectronIds (s : SimState) : List String :=
  ((waitingElectrons s).take (nPairs s)).map Particle.id

/-- The batch of mutations the pairing effect applies when `pairs > 0`
(main.tsx:665-679): delete the used particles by id, credit the cathode,
bump `platedCount`, and latch `showSuccess` when the goal is reached. -/
def pairedState (s : SimState) : SimState :=
  { s with
      ions := s.ions.filter (fun p => !((usedIonIds s).contains p.id))
      electrons := s.electrons.filter (fun p => !((usedElectronIds s).contains p.id))
      cathodeMass := s.cathodeMass + MASS_PER_UNIT * ((nPairs s : ℚ))
      platedCount := s.platedCount + nPairs s
      showSuccess := if TOTAL_PLATING_GOAL ≤ s.platedCount + nPairs s then true
        else s.showSuccess }

/-- The pairing `useEffect` (main.tsx:654-689), run after every registry
mutation.  Returns the new state together with the "complete"-signal
flag: the source fires `setShowSuccess(true)` and the win sound exactly
when the updated `platedCount` has reached `TOTAL_PLATING_GOAL`. -/
def pairingCheck (s : SimState) : SimState × Bool :=
  if (waitingIons s).length > 0 ∧ (waitingElectrons s).length > 0 then
    if nPairs s > 0 then
      (pairedState s, decide (TOTAL_PLATING_GOAL ≤ s.platedCount + nPairs s))
    else (s, false)
  else (s, false)

/-- Source `resetGame` (main.tsx:691-702).  Note that `ionResetKey` is
not reset by the source; the tutorial flags are presentation-only. -/
def resetGame (s : SimState) : SimState :=
  { s with
      anodeMass := ANODE_START_MASS
      cathodeMass := CATHODE_START_MASS
      ions := []
      electrons := []
      platedCount := 0
      showSuccess := false
      isAnodeConnected := false
      isCathodeConnected := false }

/-- The discrete input events driving the core (spec section 6).  Spawn
and electron-drag-end carry a `now` parameter: the value `Date.now()`
returns during that handler. -/
inductive Event where
  | spawn (now : ℕ)
  | electronDrag (id : String) (p : Point)
  | electronDragEnd (id : String) (now : ℕ)
  | ionDragEnd (id : String) (p : Point)
  | connectAnode
  | connectCathode
  | restart
deriving DecidableEq, Repr

/-- One transition of the simulation.  Every handler that mutates the
registry is followed by the pairing check, exactly as the `useEffect` on
`[ions, electrons]` guarantees in the source (a second run of the check
immediately after is a no-op, see `pairingCheck_fix`). -/
def step (env : Env) (s : SimState) (e : Event) : SimState :=
  match e with
  | Event.spawn now => (pairingCheck (spawnIon env.anodeWirePoints now s).2).1
  | Event.electronDrag id p => (pairingCheck (handleElectronDrag env id p s)).1
  | Event.electronDragEnd id now => (pairingCheck (handleElectronDragEnd env now id s)).1
  | Event.ionDragEnd id p => (pairingCheck (handleIonDragEnd env id p s).2).1
  | Event.connectAnode => { s with isAnodeConnected := true }
  | Event.connectCathode => { s with isCathodeConnected := true }
  | Event.restart => resetGame s

/-- A step paired with the environment current at that instant (the
geometry provider may recompute between events). -/
def stepE (s : SimState) (ee : Env × Event) : SimState := step ee.1 s ee.2

/-- A whole run: fold a trace of events over the initial state. -/
def run (trace : List (Env × Event)) : SimState := trace.foldl stepE initState

/-- Whether the step emits the "complete" signal (the
`setShowSuccess(true)` / win-sound branch of the pairing effect). -/
def stepEmits (env : Env) (s : SimState) (e : Event) : Bool :=
  match e with
  | Event.spawn now => (pairingCheck (spawnIon env.anodeWirePoints now s).2).2
  | Event.electronDrag id p => (pairingCheck (handleElectronDrag env id p s)).2
  | Event.electronDragEnd id now => (pairingCheck (handleElectronDragEnd env now id s)).2
  | Event.ionDragEnd id p => (pairingCheck (handleIonDragEnd env id p s).2).2
  | _ => false

/-- How many times the "complete" signal fires along a run. -/
def runEmitCount (trace : List (Env × Event)) : ℕ :=
  (trace.foldl
    (fun acc ee =>
      (stepE acc.1 ee, acc.2 + (if stepEmits ee.1 acc.1 ee.2 then 1 else 0)))
    (initState, 0)).2

/-- The timestamp an event consumes from `Date.now()`, if any. -/
def Event.stamp : Event → Option ℕ
  | Event.spawn now => some now
  | Event.electronDragEnd _ now => some now
  | _ => none

/-- All timestamps consumed along a trace, in order. -/
def traceStamps (trace : List (Env × Event)) : List ℕ :=
  trace.filterMap (fun ee => ee.2.stamp)

/-- All particle ids currently alive in the registry. -/
def allIds (s : SimState) : List String :=
  s.ions.map Particle.id ++ s.electrons.map Particle.id

/-- The conserved quantity of claim C10: electrode masses plus the mass
equivalent of the dissolved ions. -/
def massTotal (s : SimState) : ℚ :=
  s.anodeMass + s.cathodeMass + MASS_PER_UNIT * (s.ions.length : ℚ)

/-- A concrete, fixed geometry used by the counterexample traces and
witnesses: straight two-waypoint wires, the identity viewBox mapping,
a beaker covering the scene and a cathode rectangle inside it. -/
def env0 : Env :=
  { anodeWirePoints := [⟨0, 0⟩, ⟨100, 0⟩]
    cathodeWirePoints := [⟨0, 50⟩, ⟨100, 50⟩]
    svgRect := some ⟨0, 0, 1000, 600⟩
    beakerRect := some ⟨0, 1000, 0, 600⟩
    cathodeRect := some ⟨400, 600, 400, 500⟩ }

/-- One full plating cycle under `env0`: spawn, drag the anode electron
to the battery, hand off, drag the cathode electron down, complete, and
drop the ion on the cathode (which triggers one pairing).  Timestamps
3k, 3k+1, 3k+2 keep ids distinct across cycles. -/
def cycleEvents (k : ℕ) : List (Env × Event) :=
  [(env0, Event.spawn (3 * k)),
   (env0, Event.electronDrag (mkAeId (3 * k)) ⟨100, 0⟩),
   (env0, Event.electronDragEnd (mkAeId (3 * k)) (3 * k + 1)),
   (env0, Event.electronDrag (mkCeId (3 * k + 1)) ⟨100, 50⟩),
   (env0, Event.electronDragEnd (mkCeId (3 * k + 1)) (3 * k + 2)),
   (env0, Event.ionDragEnd (mkIonId (3 * k)) ⟨500, 450⟩)]

/-- Connecting both wires and then plating three ions: three successful
spawns are enough to exceed five active particles. -/
def c1Trace : List (Env × Event) :=
  [(env0, Event.connectAnode), (env0, Event.connectCathode),
   (env0, Event.spawn 0), (env0, Event.spawn 1), (env0, Event.spawn 2)]

/-- Seven complete plating cycles: `platedCount` passes the goal of 6
and then reaches 7, so the completion branch runs twice. -/
def c2Trace : List (Env × Event) :=
  [(env0, Event.connectAnode), (env0, Event.connectCathode)] ++
    (List.range 7).flatMap cycleEvents

/-- Two spawns served by the same `Date.now()` millisecond. -/
def c9Trace : List (Env × Event) :=
  [(env0, Event.connectAnode), (env0, Event.connectCathode),
   (env0, Event.spawn 0), (env0, Event.spawn 0)]

/-- Two same-millisecond spawns followed by one full plating attempt:
the duplicated ids make the handlers act on both twins at once, and the
pairing filter then deletes two ions while crediting one. -/
def c10Trace : List (Env × Event) :=
  [(env0, Event.connectAnode), (env0, Event.connectCathode),
   (env0, Event.spawn 0), (env0, Event.spawn 0),
   (env0, Event.electronDrag (mkAeId 0) ⟨100, 0⟩),
   (env0, Event.electronDragEnd (mkAeId 0) 1),
   (env0, Event.electronDrag (mkCeId 1) ⟨100, 50⟩),
   (env0, Event.electronDragEnd (mkCeId 1) 2),
   (env0, Event.ionDragEnd (mkIonId 0) ⟨500, 450⟩)]

/-!
Particle-id arithmetic.  Ids are `"ion-" ++ toString t` and friends; to
reason about their collisions we need that `Nat.repr` (the `toString` of
`ℕ`) is injective, which we prove through a decimal-digit evaluation
function, together with the pairwise distinctness of the three
prefixed families for distinct timestamps.
-/

/-- Value of a decimal digit character (0 for non-digits). -/
def digitVal : Char → ℕ
  | '0' => 0
  | '1' => 1
  | '2' => 2
  | '3' => 3
  | '4' => 4
  | '5' => 5
  | '6' => 6
  | '7' => 7
  | '8' => 8
  | '9' => 9
  | _ => 0

/-- Decimal value of a digit string (most significant first). -/
def digitsVal (l : List Char) : ℕ := l.foldl (fun acc c => 10 * acc + digitVal c) 0

lemma digitVal_digitChar (d : ℕ) (hd : d < 10) : digitVal (Nat.digitChar d) = d := by
  interval_cases d <;> rfl

lemma digitsVal_aux (l : List Char) (a : ℕ) :
    l.foldl (fun acc c => 10 * acc + digitVal c) a =
      a * 10 ^ l.length + digitsVal l := by
  induction l generalizing a with
  | nil => simp [digitsVal]
  | cons c t ih =>
    have h1 : digitsVal (c :: t) = (10 * 0 + digitVal c) * 10 ^ t.length + digitsVal t := by
      rw [digitsVal, List.foldl_cons, ih]
    rw [List.foldl_cons, ih, h1, List.length_cons]
    ring

lemma digitsVal_append_singleton (l : List Char) (c : Char) :
    digitsVal (l ++ [c]) = 10 * digitsVal l + digitVal c := by
  simp [digitsVal, List.foldl_append]

lemma toDigitsCore_acc (fuel n : ℕ) (ds : List Char) :
    Nat.toDigitsCore 10 fuel n ds = Nat.toDigitsCore 10 fuel n [] ++ ds := by
  induction fuel generalizing n ds with
  | zero => simp [Nat.toDigitsCore]
  | succ fuel ih =>
    simp only [Nat.toDigitsCore]
    by_cases h : n / 10 = 0
    · simp [h]
    · simp only [h, if_false]
      rw [ih (n / 10) [Nat.digitChar (n % 10)], ih (n / 10) (Nat.digitChar (n % 10) :: ds),
        List.append_assoc]
      rfl

lemma digitsVal_toDigitsCore (fuel n : ℕ) (h : n < fuel) :
    digitsVal (Nat.toDigitsCore 10 fuel n []) = n := by
  induction fuel generalizing n with
  | zero => omega
  | succ fuel ih =>
    simp only [Nat.toDigitsCore]
    by_cases h0 : n / 10 = 0
    · have hn : n < 10 := by omega
      simp [h0, digitsVal, Nat.mod_eq_of_lt hn, digitVal_digitChar n hn]
    · have hpos : 0 < n := by omega
      have hdiv : n / 10 < n := Nat.div_lt_self hpos (by norm_num)
      simp only [h0, if_false]
      rw [toDigitsCore_acc, digitsVal_append_singleton, ih (n / 10) (by omega),
        digitVal_digitChar (n % 10) (Nat.mod_lt _ (by norm_num))]
      omega

lemma natRepr_injective : Function.Injective Nat.repr := by
  intro a b h
  have hdata : Nat.toDigits 10 a = Nat.toDigits 10 b := congrArg String.data h
  have ha : digitsVal (Nat.toDigitsCore 10 (a + 1) a []) = a :=
    digitsVal_toDigitsCore (a + 1) a (Nat.lt_succ_self a)
  have hb : digitsVal (Nat.toDigitsCore 10 (b + 1) b []) = b :=
    digitsVal_toDigitsCore (b + 1) b (Nat.lt_succ_self b)
  have : digitsVal (Nat.toDigits 10 a) = digitsVal (Nat.toDigits 10 b) := by rw [hdata]
  simpa [Nat.toDigits, ha, hb] using this

lemma toString_nat_injective (a b : ℕ) (h : toString a = toString b) : a = b :=
  natRepr_injective h

lemma mkIonId_inj (a b : ℕ) (h : mkIonId a = mkIonId b) : a = b := by
  have hd : ('i' :: 'o' :: 'n' :: '-' :: (toString a).data)
      = ('i' :: 'o' :: 'n' :: '-' :: (toString b).data) := congrArg String.data h
  have : (toString a).data = (toString b).data := by simpa using hd
  exact toString_nat_injective a b (String.ext this)

lemma mkAeId_inj (a b : ℕ) (h : mkAeId a = mkAeId b) : a = b := by
  have hd : ('a' :: 'e' :: '-' :: (toString a).data)
      = ('a' :: 'e' :: '-' :: (toString b).data) := congrArg String.data h
  have : (toString a).data = (toString b).data := by simpa using hd
  exact toString_nat_injective a b (String.ext this)

lemma mkCeId_inj (a b : ℕ) (h : mkCeId a = mkCeId b) : a = b := by
  have hd : ('c' :: 'e' :: '-' :: (toString a).data)
      = ('c' :: 'e' :: '-' :: (toString b).data) := congrArg String.data h
  have : (toString a).data = (toString b).data := by simpa using hd
  exact toString_nat_injective a b (String.ext this)

lemma mkIonId_ne_mkAeId (a b : ℕ) : mkIonId a ≠ mkAeId b := by
  intro h
  have hd : ('i' :: 'o' :: 'n' :: '-' :: (toString a).data)
      = ('a' :: 'e' :: '-' :: (toString b).data) := congrArg String.data h
  simp at hd

lemma mkIonId_ne_mkCeId (a b : ℕ) : mkIonId a ≠ mkCeId b := by
  intro h
  have hd : ('i' :: 'o' :: 'n' :: '-' :: (toString a).data)
      = ('c' :: 'e' :: '-' :: (toString b).data) := congrArg String.data h
  simp at hd

lemma mkAeId_ne_mkCeId (a b : ℕ) : mkAeId a ≠ mkCeId b := by
  intro h
  have hd : ('a' :: 'e' :: '-' :: (toString a).data)
      = ('c' :: 'e' :: '-' :: (toString b).data) := congrArg String.data h
  simp at hd

/-!
Drag monotonicity (claim C6).
-/

/-- Progress of the electron with the given id, 0 when absent (the same
`electron.progress || 0` reading the source applies). -/
def progressOf (s : SimState) (j : String) : ℚ :=
  match s.electrons.find? (fun e => e.id == j) with
  | some e => e.progress.getD 0
  | none => 0

/-- Iterated drag updates: a sequence of `handleElectronDrag` calls with
their target ids and client points. -/
def applyDrags (env : Env) (ds : List (String × Point)) (s : SimState) : SimState :=
  ds.foldl (fun st d => handleElectronDrag env d.1 d.2 st) s

lemma getProgressFromDrag_ge (points : List Point) (dragX dragY currentProgress : ℚ) :
    currentProgress ≤ getProgressFromDrag points dragX dragY currentProgress := by
  unfold getProgressFromDrag
  exact le_max_left _ _

lemma find?_map_id_pres (f : Particle → Particle) (hf : ∀ e, (f e).id = e.id)
    (l : List Particle) (j : String) :
    (l.map f).find? (fun e => e.id == j) = (l.find? (fun e => e.id == j)).map f := by
  induction l with
  | nil => rfl
  | cons a t ih =>
    simp only [List.map_cons]
    cases h : (a.id == j) with
    | false =>
      rw [List.find?_cons_of_neg, List.find?_cons_of_neg, ih]
      · simp [h]
      · simp [hf, h]
    | true =>
      rw [List.find?_cons_of_pos, List.find?_cons_of_pos]
      · rfl
      · simp [h]
      · simp [hf, h]

/-- The electron updater of `handleElectronDrag` (the callback passed to
`setElectrons` at main.tsx:596). -/
def dragUpdater (env : Env) (id : String) (svgX svgY : ℚ) (electron : Particle) : Particle :=
  if electron.id != id then electron
  else
    let points := if electron.segment == some Segment.anode_wire then
        env.anodeWirePoints else env.cathodeWirePoints
    if points.length == 0 then electron
    else
      let newProgress := getProgressFromDrag points svgX svgY (electron.progress.getD 0)
      let newPos := getPointOnPath points newProgress
      { electron with x := newPos.x, y := newPos.y, progress := some newProgress }

lemma handleElectronDrag_eq_none (env : Env) (id : String) (clientPoint : Point)
    (s : SimState) (h : env.svgRect = none) :
    handleElectronDrag env id clientPoint s = s := by
  unfold handleElectronDrag
  rw [h]

lemma handleElectronDrag_eq_some (env : Env) (id : String) (clientPoint : Point)
    (s : SimState) (r : SvgRect) (h : env.svgRect = some r) :
    handleElectronDrag env id clientPoint s =
      { s with electrons := s.electrons.map (dragUpdater env id
          ((clientPoint.x - r.left) * (1000 / r.width))
          ((clientPoint.y - r.top) * (600 / r.height))) } := by
  unfold handleElectronDrag dragUpdater
  rw [h]

lemma dragUpdater_id (env : Env) (id : String) (svgX svgY : ℚ) (e : Particle) :
    (dragUpdater env id svgX svgY e).id = e.id := by
  simp only [dragUpdater]
  split
  · rfl
  · split <;> split <;> rfl

lemma dragUpdater_segment (env : Env) (id : String) (svgX svgY : ℚ) (e : Particle) :
    (dragUpdater env id svgX svgY e).segment = e.segment := by
  simp only [dragUpdater]
  split
  · rfl
  · split <;> split <;> rfl

lemma dragUpdater_status (env : Env) (id : String) (svgX svgY : ℚ) (e : Particle) :
    (dragUpdater env id svgX svgY e).status = e.status := by
  simp only [dragUpdater]
  split
  · rfl
  · split <;> split <;> rfl

lemma dragUpdater_progress_ge (env : Env) (id : String) (svgX svgY : ℚ) (e : Particle) :
    e.progress.getD 0 ≤ (dragUpdater env id svgX svgY e).progress.getD 0 := by
  simp only [dragUpdater]
  split
  · exact le_refl _
  · split <;> split
    · exact le_refl _
    · simpa using getProgressFromDrag_ge _ svgX svgY (e.progress.getD 0)
    · exact le_refl _
    · simpa using getProgressFromDrag_ge _ svgX svgY (e.progress.getD 0)

lemma handleElectronDrag_progress_mono (env : Env) (i : String) (pt : Point)
    (s : SimState) (j : String) :
    progressOf s j ≤ progressOf (handleElectronDrag env i pt s) j := by
  cases h : env.svgRect with
  | none => rw [handleElectronDrag_eq_none env i pt s h]
  | some r =>
    rw [handleElectronDrag_eq_some env i pt s r h]
    unfold progressOf
    simp only
    rw [find?_map_id_pres _ (fun e => dragUpdater_id env i _ _ e)]
    cases hfind : s.electrons.find? (fun e => e.id == j) with
    | none => simp
    | some e =>
      simpa using dragUpdater_progress_ge env i _ _ e

lemma handleElectronDrag_proj (env : Env) (i : String) (pt : Point) (s : SimState) :
    (handleElectronDrag env i pt s).electrons.map (fun e => (e.id, e.segment, e.status)) =
      s.electrons.map (fun e => (e.id, e.segment, e.status)) := by
  cases h : env.svgRect with
  | none => rw [handleElectronDrag_eq_none env i pt s h]
  | some r =>
    rw [handleElectronDrag_eq_some env i pt s r h]
    simp only [List.map_map]
    refine List.map_congr_left (fun e _ => ?_)
    simp [Function.comp, dragUpdater_id, dragUpdater_segment, dragUpdater_status]

lemma applyDrags_progress_mono (env : Env) (ds : List (String × Point))
    (s : SimState) (j : String) :
    progressOf s j ≤ progressOf (applyDrags env ds s) j := by
  induction ds generalizing s with
  | nil => exact le_refl _
  | cons d t ih =>
    exact le_trans (handleElectronDrag_progress_mono env d.1 d.2 s j) (ih _)

lemma applyDrags_proj (env : Env) (ds : List (String × Point)) (s : SimState) :
    (applyDrags env ds s).electrons.map (fun e => (e.id, e.segment, e.status)) =
      s.electrons.map (fun e => (e.id, e.segment, e.status)) := by
  induction ds generalizing s with
  | nil => rfl
  | cons d t ih =>
    rw [applyDrags, List.foldl_cons]
    exact (ih _).trans (handleElectronDrag_proj env d.1 d.2 s)

/-!
Case equations for `spawnIon` (claims C1, C4).
-/

/-- The `newIon` literal of main.tsx:504. -/
def newIon (now : ℕ) : Particle :=
  { id := mkIonId now, type := PType.ion, x := 0, y := 0, status := PStatus.active }

/-- The `newAnodeElectron` literal of main.tsx:513. -/
def newAnodeElectron (pts : List Point) (now : ℕ) : Particle :=
  { id := mkAeId now, type := PType.anode_electron
    x := (pts.headD ⟨0, 0⟩).x, y := (pts.headD ⟨0, 0⟩).y, status := PStatus.active
    segment := some Segment.anode_wire, progress := some 0 }

lemma spawnIon_not_connected (pts : List Point) (now : ℕ) (s : SimState)
    (h : s.isAnodeConnected = false ∨ s.isCathodeConnected = false) :
    spawnIon pts now s = (SpawnOutcome.circuitNotComplete, s) := by
  unfold spawnIon
  rw [if_pos h]

lemma spawnIon_depleted (pts : List Point) (now : ℕ) (s : SimState)
    (hA : s.isAnodeConnected = true) (hC : s.isCathodeConnected = true)
    (hm : s.anodeMass ≤ 10) :
    spawnIon pts now s = (SpawnOutcome.anodeDepleted, s) := by
  unfold spawnIon
  rw [if_neg (by simp [hA, hC]), if_pos hm]

lemma spawnIon_capacity (pts : List Point) (now : ℕ) (s : SimState)
    (hA : s.isAnodeConnected = true) (hC : s.isCathodeConnected = true)
    (hm : ¬s.anodeMass ≤ 10) (hcap : 5 ≤ activeCount s) :
    spawnIon pts now s = (SpawnOutcome.capacityExceeded, s) := by
  unfold spawnIon
  rw [if_neg (by simp [hA, hC]), if_neg hm, if_pos hcap]

lemma spawnIon_success (pts : List Point) (now : ℕ) (s : SimState)
    (hA : s.isAnodeConnected = true) (hC : s.isCathodeConnected = true)
    (hm : ¬s.anodeMass ≤ 10) (hcap : ¬5 ≤ activeCount s) :
    spawnIon pts now s =
      (SpawnOutcome.ok,
        { s with
            ions := s.ions ++ [newIon now]
            electrons := s.electrons ++ [newAnodeElectron pts now]
            anodeMass := s.anodeMass - MASS_PER_UNIT }) := by
  unfold spawnIon newIon newAnodeElectron
  rw [if_neg (by simp [hA, hC]), if_neg hm, if_neg hcap]

lemma spawnIon_fail_state (pts : List Point) (now : ℕ) (s : SimState)
    (h : (spawnIon pts now s).1 ≠ SpawnOutcome.ok) : (spawnIon pts now s).2 = s := by
  by_cases h1 : s.isAnodeConnected = false ∨ s.isCathodeConnected = false
  · rw [spawnIon_not_connected pts now s h1]
  · simp only [not_or, Bool.not_eq_false] at h1
    obtain ⟨hA, hC⟩ := h1
    by_cases h2 : s.anodeMass ≤ 10
    · rw [spawnIon_depleted pts now s hA hC h2]
    · by_cases h3 : 5 ≤ activeCount s
      · rw [spawnIon_capacity pts now s hA hC h2 h3]
      · exact absurd (by rw [spawnIon_success pts now s hA hC h2 h3]) h

lemma spawnIon_cap_reject (pts : List Point) (now : ℕ) (s : SimState)
    (hcap : 5 ≤ activeCount s) :
    (spawnIon pts now s).1 ≠ SpawnOutcome.ok ∧ (spawnIon pts now s).2 = s := by
  have h1 : (spawnIon pts now s).1 ≠ SpawnOutcome.ok := by
    by_cases hcc : s.isAnodeConnected = false ∨ s.isCathodeConnected = false
    · rw [spawnIon_not_connected pts now s hcc]
      simp
    · simp only [not_or, Bool.not_eq_false] at hcc
      obtain ⟨hA, hC⟩ := hcc
      by_cases h2 : s.anodeMass ≤ 10
      · rw [spawnIon_depleted pts now s hA hC h2]
        simp
      · rw [spawnIon_capacity pts now s hA hC h2 hcap]
        simp
  exact ⟨h1, spawnIon_fail_state pts now s h1⟩

/-!
Case equations for `handleIonDragEnd` (claim C7).
-/

lemma handleIonDragEnd_outOfBounds (env : Env) (id : String) (p : Point) (s : SimState)
    (h : optTest (fun b => outsideRect b p) (getElectrolyteBounds env.beakerRect) = true) :
    handleIonDragEnd env id p s =
      (IonDropOutcome.outOfBounds, { s with ionResetKey := s.ionResetKey + 1 }) := by
  unfold handleIonDragEnd
  rw [if_pos h]

lemma handleIonDragEnd_accepted (env : Env) (id : String) (p : Point) (s : SimState)
    (hb : optTest (fun b => outsideRect b p) (getElectrolyteBounds env.beakerRect) = false)
    (hc : optTest (fun c => insideRect c p) env.cathodeRect = true)
    (hw : s.electrons.any isWaiting = true) :
    handleIonDragEnd env id p s =
      (IonDropOutcome.accepted,
        { s with ions := s.ions.map (fun q =>
            if q.id == id then { q with status := PStatus.waiting } else q) }) := by
  unfold handleIonDragEnd
  rw [if_neg (by simp [hb]), if_pos (by simp [hc, hw])]

lemma handleIonDragEnd_noWaiting (env : Env) (id : String) (p : Point) (s : SimState)
    (hb : optTest (fun b => outsideRect b p) (getElectrolyteBounds env.beakerRect) = false)
    (hc : optTest (fun c => insideRect c p) env.cathodeRect = true)
    (hw : s.electrons.any isWaiting = false) :
    handleIonDragEnd env id p s = (IonDropOutcome.noWaitingElectron, s) := by
  unfold handleIonDragEnd
  rw [if_neg (by simp [hb]), if_neg (by simp [hw]), if_pos (by simp [hc, hw])]

lemma handleIonDragEnd_ignored (env : Env) (id : String) (p : Point) (s : SimState)
    (hb : optTest (fun b => outsideRect b p) (getElectrolyteBounds env.beakerRect) = false)
    (hc : optTest (fun c => insideRect c p) env.cathodeRect = false) :
    handleIonDragEnd env id p s = (IonDropOutcome.ignored, s) := by
  unfold handleIonDragEnd
  rw [if_neg (by simp [hb]), if_neg (by simp [hc]), if_neg (by simp [hc])]

/-!
Case equations for `handleElectronDragEnd` (claims C5, C8).
-/

/-- The `newCathodeElectron` literal of main.tsx:622. -/
def newCathodeElectron (env : Env) (now : ℕ) : Particle :=
  { id := mkCeId now, type := PType.cathode_electron
    x := (env.cathodeWirePoints.headD ⟨0, 0⟩).x
    y := (env.cathodeWirePoints.headD ⟨0, 0⟩).y
    status := PStatus.active, segment := some Segment.cathode_wire, progress := some 0 }

lemma handleElectronDragEnd_notFound (env : Env) (now : ℕ) (id : String) (s : SimState)
    (h : s.electrons.find? (fun e => e.id == id) = none) :
    handleElectronDragEnd env now id s = s := by
  unfold handleElectronDragEnd
  rw [h]

lemma handleElectronDragEnd_anode (env : Env) (now : ℕ) (id : String) (s : SimState)
    (e : Particle) (h : s.electrons.find? (fun x => x.id == id) = some e)
    (hseg : e.segment = some Segment.anode_wire) (hpr : (0.95 : ℚ) ≤ e.progress.getD 0) :
    handleElectronDragEnd env now id s =
      { s with electrons :=
          s.electrons.filter (fun x => x.id != id) ++ [newCathodeElectron env now] } := by
  unfold handleElectronDragEnd newCathodeElectron
  rw [h]
  simp only
  rw [if_pos ⟨hseg, hpr⟩]

lemma handleElectronDragEnd_cathode (env : Env) (now : ℕ) (id : String) (s : SimState)
    (e : Particle) (h : s.electrons.find? (fun x => x.id == id) = some e)
    (hseg : e.segment = some Segment.cathode_wire) (hpr : (0.95 : ℚ) ≤ e.progress.getD 0) :
    handleElectronDragEnd env now id s =
      { s with electrons := s.electrons.map (fun x =>
          if x.id == id then { x with status := PStatus.waiting, progress := some 1 }
          else x) } := by
  unfold handleElectronDragEnd
  rw [h]
  simp only
  rw [if_neg (by simp [hseg]), if_pos ⟨hseg, hpr⟩]

lemma handleElectronDragEnd_noop (env : Env) (now : ℕ) (id : String) (s : SimState)
    (e : Particle) (h : s.electrons.find? (fun x => x.id == id) = some e)
    (h1 : ¬(e.segment = some Segment.anode_wire ∧ (0.95 : ℚ) ≤ e.progress.getD 0))
    (h2 : ¬(e.segment = some Segment.cathode_wire ∧ (0.95 : ℚ) ≤ e.progress.getD 0)) :
    handleElectronDragEnd env now id s = s := by
  unfold handleElectronDragEnd
  rw [h]
  simp only
  rw [if_neg h1, if_neg h2]

/-!
Uniqueness helpers: the first match of `find?` and the only match of the
by-id maps, under distinct ids.
-/

lemma find?_eq_of_nodup (l : List Particle) (e : Particle) (j : String)
    (hnd : (l.map Particle.id).Nodup) (he : e ∈ l) (hid : e.id = j) :
    l.find? (fun x => x.id == j) = some e := by
  induction l with
  | nil => cases he
  | cons a t ih =>
    rw [List.map_cons, List.nodup_cons] at hnd
    obtain ⟨hnotin, hndt⟩ := hnd
    rcases List.mem_cons.1 he with rfl | ht
    · rw [List.find?_cons_of_pos]
      simp [hid]
    · have hae : a.id ≠ j := by
        intro hj
        apply hnotin
        rw [hj, ← hid]
        exact List.mem_map_of_mem Particle.id ht
      rw [List.find?_cons_of_neg _ (by simp [hae])]
      exact ih hndt ht

lemma eq_of_id_eq_of_nodup (l : List Particle) (hnd : (l.map Particle.id).Nodup)
    (x y : Particle) (hx : x ∈ l) (hy : y ∈ l) (h : x.id = y.id) : x = y :=
  List.inj_on_of_nodup_map hnd hx hy h

/-!
Pairing batch lemmas (claims C2, C3, and the ledger invariants).
-/

lemma pairingCheck_no_pairs (s : SimState)
    (h : (waitingIons s).length = 0 ∨ (waitingElectrons s).length = 0) :
    pairingCheck s = (s, false) := by
  unfold pairingCheck
  rw [if_neg (by omega)]

lemma pairingCheck_pairs (s : SimState)
    (hi : 0 < (waitingIons s).length) (he : 0 < (waitingElectrons s).length) :
    pairingCheck s =
      (pairedState s, decide (TOTAL_PLATING_GOAL ≤ s.platedCount + nPairs s)) := by
  unfold pairingCheck
  rw [if_pos ⟨hi, he⟩, if_pos (by unfold nPairs; omega)]

/-- Deleting by the ids of a sub-multiset of a registry with distinct ids
is deleting by membership. -/
lemma filter_by_used_ids (l sub : List Particle) (hnd : (l.map Particle.id).Nodup)
    (hsub : ∀ q ∈ sub, q ∈ l) :
    l.filter (fun p => !((sub.map Particle.id).contains p.id)) =
      l.filter (fun p => decide (p ∉ sub)) := by
  apply List.filter_congr
  intro p hp
  by_cases hmem : p ∈ sub
  · have hidmem : p.id ∈ sub.map Particle.id := List.mem_map_of_mem _ hmem
    simp [List.contains, List.elem_iff, hidmem, hmem]
  · have hnc : ¬ p.id ∈ sub.map Particle.id := by
      intro hc
      obtain ⟨q, hq, hqid⟩ := List.mem_map.1 hc
      have : p = q := eq_of_id_eq_of_nodup l hnd p q hp (hsub q hq) hqid.symm
      exact hmem (this ▸ hq)
    simp [List.contains, List.elem_iff, hnc, hmem]

lemma pairedState_ions (s : SimState) (hnd : (s.ions.map Particle.id).Nodup) :
    (pairedState s).ions =
      s.ions.filter (fun p => decide (p ∉ (waitingIons s).take (nPairs s))) := by
  show s.ions.filter (fun p => !((usedIonIds s).contains p.id)) = _
  unfold usedIonIds
  apply filter_by_used_ids s.ions _ hnd
  intro q hq
  exact List.mem_of_mem_filter (List.mem_of_mem_take hq)

lemma pairedState_electrons (s : SimState) (hnd : (s.electrons.map Particle.id).Nodup) :
    (pairedState s).electrons =
      s.electrons.filter (fun p => decide (p ∉ (waitingElectrons s).take (nPairs s))) := by
  show s.electrons.filter (fun p => !((usedElectronIds s).contains p.id)) = _
  unfold usedElectronIds
  apply filter_by_used_ids s.electrons _ hnd
  intro q hq
  exact List.mem_of_mem_take (l := waitingElectrons s) hq |> List.mem_of_mem_filter

/-- After the pairing effect runs, one of the two waiting queues is
empty: the shorter queue is wholly consumed.  This needs no assumption
on ids: every particle whose id occurs in the used-id list is deleted,
and the used-id list covers the whole shorter queue. -/
lemma pairingCheck_min_zero (s : SimState) :
    min (waitingIons (pairingCheck s).1).length
      (waitingElectrons (pairingCheck s).1).length = 0 := by
  by_cases h : (waitingIons s).length = 0 ∨ (waitingElectrons s).length = 0
  · rw [pairingCheck_no_pairs s h]
    show min (waitingIons s).length (waitingElectrons s).length = 0
    omega
  · push_neg at h
    obtain ⟨hi, he⟩ := h
    rw [pairingCheck_pairs s (by omega) (by omega)]
    rcases min_cases (waitingIons s).length (waitingElectrons s).length with
      ⟨hmin, hle⟩ | ⟨hmin, hle⟩
    · -- the ion queue is the shorter one: it is wholly consumed
      have : waitingIons (pairedState s) = [] := by
        unfold waitingIons
        show (s.ions.filter (fun p => !((usedIonIds s).contains p.id))).filter isWaiting = []
        rw [List.filter_filter, List.filter_eq_nil_iff]
        intro p hp
        intro hcontra
        have hw : isWaiting p = true := by
          cases hb : isWaiting p
          · rw [hb] at hcontra
            simp at hcontra
          · rfl
        have hpw : p ∈ waitingIons s := by
          unfold waitingIons
          exact List.mem_filter.2 ⟨hp, hw⟩
        have hpid : p.id ∈ usedIonIds s := by
          unfold usedIonIds nPairs
          rw [hmin, List.take_length]
          exact List.mem_map_of_mem _ hpw
        have : (usedIonIds s).contains p.id = true := by
          simpa [List.contains, List.elem_iff] using hpid
        rw [this] at hcontra
        simp at hcontra
      rw [this]
      simp
    · -- the electron queue is the shorter one
      have : waitingElectrons (pairedState s) = [] := by
        unfold waitingElectrons
        show (s.electrons.filter
          (fun p => !((usedElectronIds s).contains p.id))).filter isWaiting = []
        rw [List.filter_filter, List.filter_eq_nil_iff]
        intro p hp
        intro hcontra
        have hw : isWaiting p = true := by
          cases hb : isWaiting p
          · rw [hb] at hcontra
            simp at hcontra
          · rfl
        have hpw : p ∈ waitingElectrons s := by
          unfold waitingElectrons
          exact List.mem_filter.2 ⟨hp, hw⟩
        have hpid : p.id ∈ usedElectronIds s := by
          unfold usedElectronIds nPairs
          rw [hmin, List.take_length]
          exact List.mem_map_of_mem _ hpw
        have : (usedElectronIds s).contains p.id = true := by
          simpa [List.contains, List.elem_iff] using hpid
        rw [this] at hcontra
        simp at hcontra
      rw [this]
      simp

/-- Running the pairing check twice in a row is the same as once: the
effect re-fires after its own mutation but finds one queue empty. -/
lemma pairingCheck_fix (s : SimState) :
    pairingCheck (pairingCheck s).1 = ((pairingCheck s).1, false) := by
  apply pairingCheck_no_pairs
  have := pairingCheck_min_zero s
  omega

lemma filter_not_mem_append (t d : List Particle) (hdisj : ∀ a ∈ d, a ∉ t) :
    (t ++ d).filter (fun p => decide (p ∉ t)) = d := by
  rw [List.filter_append]
  have h1 : t.filter (fun p => decide (p ∉ t)) = [] := by
    rw [List.filter_eq_nil_iff]
    intro a ha
    simp [ha]
  have h2 : d.filter (fun p => decide (p ∉ t)) = d := by
    rw [List.filter_eq_self]
    intro a ha
    simp [hdisj a ha]
  rw [h1, h2, List.nil_append]

/-- In a duplicate-free queue, deleting the members of the first `k`
entries leaves exactly the entries from position `k` on, in order. -/
lemma filter_not_mem_take (w : List Particle) (k : ℕ) (hnd : w.Nodup) :
    w.filter (fun p => decide (p ∉ w.take k)) = w.drop k := by
  have hnd2 : ((w.take k) ++ (w.drop k)).Nodup := by
    rw [List.take_append_drop]
    exact hnd
  rw [List.nodup_append] at hnd2
  have key := filter_not_mem_append (w.take k) (w.drop k) (fun a ha hat => hnd2.2.2 hat ha)
  rw [List.take_append_drop] at key
  exact key

lemma length_filter_not_mem (l sub : List Particle) (hs : List.Sublist sub l) :
    l.Nodup → (l.filter (fun p => decide (p ∉ sub))).length = l.length - sub.length := by
  induction hs with
  | slnil => simp
  | @cons l₁ l₂ a hsub ih =>
    intro hnd
    rw [List.nodup_cons] at hnd
    have hal : a ∉ l₁ := fun ha => hnd.1 (hsub.subset ha)
    rw [List.filter_cons_of_pos (by simp [hal]), List.length_cons, ih hnd.2]
    have h1 := hsub.length_le
    have h2 : (a :: l₂).length = l₂.length + 1 := rfl
    omega
  | @cons₂ l₁ l₂ a hsub ih =>
    intro hnd
    rw [List.nodup_cons] at hnd
    rw [List.filter_cons_of_neg (by simp)]
    have hcongr : l₂.filter (fun p => decide (p ∉ a :: l₁)) =
        l₂.filter (fun p => decide (p ∉ l₁)) := by
      apply List.filter_congr
      intro p hp
      have hpa : p ≠ a := fun hq => hnd.1 (hq ▸ hp)
      simp [List.mem_cons, hpa]
    rw [hcongr, ih hnd.2]
    have h1 := hsub.length_le
    have h2 : (a :: l₂).length = l₂.length + 1 := rfl
    have h3 : (a :: l₁).length = l₁.length + 1 := rfl
    omega

lemma nPairs_le_ions (s : SimState) : nPairs s ≤ (waitingIons s).length := min_le_left _ _

lemma pairedState_ions_length (s : SimState) (hnd : (s.ions.map Particle.id).Nodup) :
    (pairedState s).ions.length = s.ions.length - nPairs s := by
  rw [pairedState_ions s hnd]
  have hsub : List.Sublist ((waitingIons s).take (nPairs s)) s.ions :=
    (List.take_sublist _ _).trans (List.filter_sublist _)
  rw [length_filter_not_mem _ _ hsub (List.Nodup.of_map _ hnd), List.length_take]
  congr 1
  have := nPairs_le_ions s
  omega


/-!
Counting active particles (claim C1).
-/

def countActive (l : List Particle) : ℕ := (l.filter isActive).length

lemma activeCount_eq (s : SimState) :
    activeCount s = countActive s.ions + countActive s.electrons := rfl

lemma countActive_eq_countP (l : List Particle) : countActive l = l.countP isActive := by
  rw [List.countP_eq_length_filter]
  rfl

lemma countActive_append (l₁ l₂ : List Particle) :
    countActive (l₁ ++ l₂) = countActive l₁ + countActive l₂ := by
  unfold countActive
  rw [List.filter_append, List.length_append]

lemma countActive_sublist {l₁ l₂ : List Particle} (h : List.Sublist l₁ l₂) :
    countActive l₁ ≤ countActive l₂ := by
  rw [countActive_eq_countP, countActive_eq_countP]
  exact h.countP_le _

lemma countActive_cons (a : Particle) (t : List Particle) :
    countActive (a :: t) = (if isActive a then 1 else 0) + countActive t := by
  unfold countActive
  cases h : isActive a
  · rw [List.filter_cons_of_neg (by simp [h])]
    simp
  · rw [List.filter_cons_of_pos (by simp [h])]
    simp [Nat.add_comm]

lemma countActive_map_le (f : Particle → Particle)
    (hf : ∀ e, isActive (f e) = true → isActive e = true) (l : List Particle) :
    countActive (l.map f) ≤ countActive l := by
  rw [countActive_eq_countP, countActive_eq_countP, List.countP_map]
  exact List.countP_mono_left (fun e _ hp => hf e hp)

lemma countActive_map_eq (f : Particle → Particle)
    (hf : ∀ e, isActive (f e) = isActive e) (l : List Particle) :
    countActive (l.map f) = countActive l := by
  rw [countActive_eq_countP, countActive_eq_countP, List.countP_map]
  apply List.countP_congr
  intro x _
  show (isActive ∘ f) x = true ↔ isActive x = true
  rw [Function.comp_apply, hf x]

lemma countActive_filter_lt (l : List Particle) (e0 : Particle) (he : e0 ∈ l)
    (ha : isActive e0 = true) (q : Particle → Bool) (hq : q e0 = false) :
    countActive (l.filter q) < countActive l := by
  induction l with
  | nil => cases he
  | cons a t ih =>
    rcases List.mem_cons.1 he with rfl | ht
    · rw [List.filter_cons_of_neg (by simp [hq]), countActive_cons]
      have h1 : countActive (t.filter q) ≤ countActive t :=
        countActive_sublist (List.filter_sublist t)
      rw [ha]
      simp
      omega
    · cases hqa : q a
      · rw [List.filter_cons_of_neg (by simp [hqa]), countActive_cons]
        have := ih ht
        omega
      · rw [List.filter_cons_of_pos (by simp [hqa]), countActive_cons, countActive_cons]
        have := ih ht
        omega

/-!
The reachable-state invariant behind the active-particle cap: every
electron id determines its segment (anode-spawned `ae-` electrons ride
the anode wire, hand-off `ce-` electrons the cathode wire), electrons on
the anode wire are always active, and at most 6 particles are active.
-/

/-- Well-formedness of an electron record as produced by the two
creation sites (main.tsx:513 and main.tsx:622). -/
def ElectronWF (e : Particle) : Prop :=
  (∃ n, e.id = mkAeId n ∧ e.segment = some Segment.anode_wire) ∨
  (∃ n, e.id = mkCeId n ∧ e.segment = some Segment.cathode_wire)

def InvA (s : SimState) : Prop :=
  (∀ e ∈ s.electrons, ElectronWF e) ∧
  (∀ e ∈ s.electrons, e.segment = some Segment.anode_wire → e.status = PStatus.active) ∧
  activeCount s ≤ 6

lemma electronWF_congr (e e' : Particle) (hid : e'.id = e.id) (hseg : e'.segment = e.segment)
    (h : ElectronWF e) : ElectronWF e' := by
  rcases h with ⟨n, h1, h2⟩ | ⟨n, h1, h2⟩
  · exact Or.inl ⟨n, by rw [hid, h1], by rw [hseg, h2]⟩
  · exact Or.inr ⟨n, by rw [hid, h1], by rw [hseg, h2]⟩

lemma invA_init : InvA initState := by
  refine ⟨?_, ?_, ?_⟩
  · intro e he
    cases he
  · intro e he
    cases he
  · show (0 : ℕ) ≤ 6
    omega

lemma invA_pairing (s : SimState) (h : InvA s) : InvA (pairingCheck s).1 := by
  by_cases hq : (waitingIons s).length = 0 ∨ (waitingElectrons s).length = 0
  · rw [pairingCheck_no_pairs s hq]
    exact h
  · push_neg at hq
    rw [pairingCheck_pairs s (by omega) (by omega)]
    dsimp only
    obtain ⟨hwf, han, hcap⟩ := h
    refine ⟨?_, ?_, ?_⟩
    · intro e he
      exact hwf e (List.mem_of_mem_filter he)
    · intro e he
      exact han e (List.mem_of_mem_filter he)
    · rw [activeCount_eq] at hcap ⊢
      have h1 : countActive (pairedState s).ions ≤ countActive s.ions :=
        countActive_sublist (List.filter_sublist _)
      have h2 : countActive (pairedState s).electrons ≤ countActive s.electrons :=
        countActive_sublist (List.filter_sublist _)
      omega

lemma invA_spawnIon (pts : List Point) (now : ℕ) (s : SimState) (h : InvA s) :
    InvA (spawnIon pts now s).2 := by
  by_cases h1 : s.isAnodeConnected = false ∨ s.isCathodeConnected = false
  · rw [spawnIon_not_connected pts now s h1]
    exact h
  · simp only [not_or, Bool.not_eq_false] at h1
    obtain ⟨hA, hC⟩ := h1
    by_cases h2 : s.anodeMass ≤ 10
    · rw [spawnIon_depleted pts now s hA hC h2]
      exact h
    · by_cases h3 : 5 ≤ activeCount s
      · rw [spawnIon_capacity pts now s hA hC h2 h3]
        exact h
      · rw [spawnIon_success pts now s hA hC h2 h3]
        obtain ⟨hwf, han, hcap⟩ := h
        refine ⟨?_, ?_, ?_⟩
        · intro e he
          rcases List.mem_append.1 he with he | he
          · exact hwf e he
          · rcases List.mem_singleton.1 he with rfl
            exact Or.inl ⟨now, rfl, rfl⟩
        · intro e he
          rcases List.mem_append.1 he with he | he
          · exact han e he
          · rcases List.mem_singleton.1 he with rfl
            intro _
            rfl
        · rw [activeCount_eq] at h3 ⊢
          simp only [countActive_append]
          have hni : countActive [newIon now] = 1 := rfl
          have hne : countActive [newAnodeElectron pts now] = 1 := rfl
          rw [hni, hne]
          omega

lemma invA_ionDragEnd (env : Env) (id : String) (p : Point) (s : SimState) (h : InvA s) :
    InvA (handleIonDragEnd env id p s).2 := by
  obtain ⟨hwf, han, hcap⟩ := h
  by_cases hb : optTest (fun b => outsideRect b p) (getElectrolyteBounds env.beakerRect) = true
  · rw [handleIonDragEnd_outOfBounds env id p s hb]
    exact ⟨hwf, han, hcap⟩
  · rw [Bool.not_eq_true] at hb
    by_cases hc : optTest (fun c => insideRect c p) env.cathodeRect = true
    · cases hw : s.electrons.any isWaiting
      · rw [handleIonDragEnd_noWaiting env id p s hb hc hw]
        exact ⟨hwf, han, hcap⟩
      · rw [handleIonDragEnd_accepted env id p s hb hc hw]
        refine ⟨hwf, han, ?_⟩
        rw [activeCount_eq] at hcap
        have hmap : countActive (s.ions.map (fun q =>
            if q.id == id then { q with status := PStatus.waiting } else q)) ≤
            countActive s.ions := by
          apply countActive_map_le
          intro e hact
          by_cases hid : (e.id == id) = true
          · rw [if_pos hid] at hact
            simp [isActive] at hact
          · rw [if_neg hid] at hact
            exact hact
        show countActive (s.ions.map (fun q =>
            if q.id == id then { q with status := PStatus.waiting } else q)) +
          countActive s.electrons ≤ 6
        omega
    · rw [Bool.not_eq_true] at hc
      rw [handleIonDragEnd_ignored env id p s hb hc]
      exact ⟨hwf, han, hcap⟩

lemma invA_drag (env : Env) (i : String) (p : Point) (s : SimState) (h : InvA s) :
    InvA (handleElectronDrag env i p s) := by
  cases hr : env.svgRect with
  | none =>
    rw [handleElectronDrag_eq_none env i p s hr]
    exact h
  | some r =>
    rw [handleElectronDrag_eq_some env i p s r hr]
    obtain ⟨hwf, han, hcap⟩ := h
    refine ⟨?_, ?_, ?_⟩
    · intro x' hx'
      obtain ⟨x, hx, rfl⟩ := List.mem_map.1 hx'
      exact electronWF_congr x _ (dragUpdater_id env i _ _ x)
        (dragUpdater_segment env i _ _ x) (hwf x hx)
    · intro x' hx' hseg
      obtain ⟨x, hx, rfl⟩ := List.mem_map.1 hx'
      rw [dragUpdater_status]
      apply han x hx
      rw [← dragUpdater_segment env i ((p.x - r.left) * (1000 / r.width))
        ((p.y - r.top) * (600 / r.height)) x]
      exact hseg
    · rw [activeCount_eq] at hcap
      show countActive s.ions + countActive (s.electrons.map (dragUpdater env i
        ((p.x - r.left) * (1000 / r.width)) ((p.y - r.top) * (600 / r.height)))) ≤ 6
      rw [countActive_map_eq _ (fun x => by
        show ((dragUpdater env i _ _ x).status == PStatus.active) =
          (x.status == PStatus.active)
        rw [dragUpdater_status])]
      exact hcap

lemma invA_dragEnd (env : Env) (now : ℕ) (id : String) (s : SimState) (h : InvA s) :
    InvA (handleElectronDragEnd env now id s) := by
  cases hf : s.electrons.find? (fun x => x.id == id) with
  | none =>
    rw [handleElectronDragEnd_notFound env now id s hf]
    exact h
  | some e =>
    obtain ⟨hwf, han, hcap⟩ := h
    have hemem : e ∈ s.electrons := List.mem_of_find?_eq_some hf
    have heid0 := List.find?_some hf
    have heid : (e.id == id) = true := heid0
    by_cases h1 : e.segment = some Segment.anode_wire ∧ (0.95 : ℚ) ≤ e.progress.getD 0
    · rw [handleElectronDragEnd_anode env now id s e hf h1.1 h1.2]
      refine ⟨?_, ?_, ?_⟩
      · intro x hx
        rcases List.mem_append.1 hx with hx | hx
        · exact hwf x (List.mem_of_mem_filter hx)
        · rcases List.mem_singleton.1 hx with rfl
          exact Or.inr ⟨now, rfl, rfl⟩
      · intro x hx hseg
        rcases List.mem_append.1 hx with hx | hx
        · exact han x (List.mem_of_mem_filter hx) hseg
        · rcases List.mem_singleton.1 hx with rfl
          simp [newCathodeElectron] at hseg
      · rw [activeCount_eq] at hcap
        show countActive s.ions + countActive
            (s.electrons.filter (fun x => x.id != id) ++ [newCathodeElectron env now]) ≤ 6
        rw [countActive_append]
        have hnew : countActive [newCathodeElectron env now] = 1 := rfl
        have hactive : isActive e = true := by
          unfold isActive
          rw [han e hemem h1.1]
          rfl
        have hlt : countActive (s.electrons.filter (fun x => x.id != id)) <
            countActive s.electrons := by
          apply countActive_filter_lt s.electrons e hemem hactive
          simp [bne]
          exact beq_iff_eq.1 heid
        omega
    · by_cases h2 : e.segment = some Segment.cathode_wire ∧ (0.95 : ℚ) ≤ e.progress.getD 0
      · rw [handleElectronDragEnd_cathode env now id s e hf h2.1 h2.2]
        have heCe : ∃ n, e.id = mkCeId n := by
          rcases hwf e hemem with ⟨n, hn, hsn⟩ | ⟨n, hn, hsn⟩
          · rw [h2.1] at hsn
            cases hsn
          · exact ⟨n, hn⟩
        refine ⟨?_, ?_, ?_⟩
        · intro x' hx'
          obtain ⟨x, hx, rfl⟩ := List.mem_map.1 hx'
          refine electronWF_congr x _ ?_ ?_ (hwf x hx)
          · split <;> rfl
          · split <;> rfl
        · intro x' hx' hseg
          obtain ⟨x, hx, rfl⟩ := List.mem_map.1 hx'
          by_cases hid : (x.id == id) = true
          · exfalso
            have hxe : x.id = e.id := by
              have h1' := beq_iff_eq.1 hid
              have h2' := beq_iff_eq.1 heid
              rw [h1', h2']
            obtain ⟨n, hen⟩ := heCe
            rcases hwf x hx with ⟨m, hm, hsm⟩ | ⟨m, hm, hsm⟩
            · rw [hxe, hen] at hm
              exact mkAeId_ne_mkCeId m n hm.symm
            · rw [if_pos hid] at hseg
              show False
              have : x.segment = some Segment.anode_wire := hseg
              rw [hsm] at this
              cases this
          · rw [if_neg hid] at hseg ⊢
            exact han x hx hseg
        · rw [activeCount_eq] at hcap
          show countActive s.ions + countActive (s.electrons.map (fun x =>
            if x.id == id then { x with status := PStatus.waiting, progress := some 1 }
            else x)) ≤ 6
          have hle : countActive (s.electrons.map (fun x =>
              if x.id == id then { x with status := PStatus.waiting, progress := some 1 }
              else x)) ≤ countActive s.electrons := by
            apply countActive_map_le
            intro x hact
            by_cases hid : (x.id == id) = true
            · rw [if_pos hid] at hact
              simp [isActive] at hact
            · rw [if_neg hid] at hact
              exact hact
          omega
      · rw [handleElectronDragEnd_noop env now id s e hf h1 h2]
        exact ⟨hwf, han, hcap⟩

lemma invA_restart (s : SimState) : InvA (resetGame s) := by
  refine ⟨?_, ?_, ?_⟩
  · intro e he
    cases he
  · intro e he
    cases he
  · show (0 : ℕ) ≤ 6
    omega

lemma invA_step (env : Env) (s : SimState) (e : Event) (h : InvA s) : InvA (step env s e) := by
  cases e with
  | spawn now => exact invA_pairing _ (invA_spawnIon env.anodeWirePoints now s h)
  | electronDrag id p => exact invA_pairing _ (invA_drag env id p s h)
  | electronDragEnd id now => exact invA_pairing _ (invA_dragEnd env now id s h)
  | ionDragEnd id p => exact invA_pairing _ (invA_ionDragEnd env id p s h)
  | connectAnode => exact h
  | connectCathode => exact h
  | restart => exact invA_restart s

lemma invA_run (trace : List (Env × Event)) : InvA (run trace) := by
  unfold run
  have key : ∀ s, InvA s → InvA (trace.foldl stepE s) := by
    induction trace with
    | nil => exact fun s h => h
    | cons a t ih => exact fun s h => ih _ (invA_step a.1 s a.2 h)
  exact key initState invA_init

/-!
The second reachable-state invariant: under a timestamp source that
never repeats, every live particle id was minted at a distinct consumed
timestamp, all live ids are pairwise distinct, and the total mass
`anode + cathode + 5·(live ions)` stays at its initial value 75.
-/

/-- The id was minted at timestamp `t` (one of the three creation
sites). -/
def IdFrom (t : ℕ) (i : String) : Prop :=
  i = mkIonId t ∨ i = mkAeId t ∨ i = mkCeId t

def InvB (used : List ℕ) (s : SimState) : Prop :=
  (∀ i ∈ allIds s, ∃ t ∈ used, IdFrom t i) ∧
  (allIds s).Nodup ∧
  massTotal s = 75

/-- Ids minted at distinct timestamps are distinct strings. -/
lemma idFrom_ne (t t' : ℕ) (hne : t ≠ t') (i j : String)
    (hi : IdFrom t i) (hj : IdFrom t' j) : i ≠ j := by
  rcases hi with hi | hi | hi <;> rcases hj with hj | hj | hj <;> rw [hi, hj] <;> intro hc
  · exact hne (mkIonId_inj t t' hc)
  · exact mkIonId_ne_mkAeId t t' hc
  · exact mkIonId_ne_mkCeId t t' hc
  · exact mkIonId_ne_mkAeId t' t hc.symm
  · exact hne (mkAeId_inj t t' hc)
  · exact mkAeId_ne_mkCeId t t' hc
  · exact mkIonId_ne_mkCeId t' t hc.symm
  · exact mkAeId_ne_mkCeId t' t hc.symm
  · exact hne (mkCeId_inj t t' hc)

/-- An id minted at a timestamp outside the consumed set is not live. -/
lemma fresh_not_mem (used : List ℕ) (s : SimState)
    (hshape : ∀ i ∈ allIds s, ∃ t ∈ used, IdFrom t i)
    (now : ℕ) (hfresh : now ∉ used) (j : String) (hj : IdFrom now j) : j ∉ allIds s := by
  intro hmem
  obtain ⟨t, ht, hti⟩ := hshape j hmem
  exact idFrom_ne t now (fun hq => hfresh (hq ▸ ht)) j j hti hj rfl

lemma invB_mono (used more : List ℕ) (s : SimState) (h : InvB used s) :
    InvB (used ++ more) s := by
  refine ⟨?_, h.2.1, h.2.2⟩
  intro i hi
  obtain ⟨t, ht, hti⟩ := h.1 i hi
  exact ⟨t, List.mem_append.2 (Or.inl ht), hti⟩

lemma invB_init : InvB [] initState := by
  refine ⟨?_, ?_, ?_⟩
  · intro i hi
    cases hi
  · exact List.nodup_nil
  · show (50 : ℚ) + 25 + 5 * (0 : ℚ) = 75
    norm_num

lemma invB_restart (used : List ℕ) (s : SimState) : InvB used (resetGame s) := by
  refine ⟨?_, ?_, ?_⟩
  · intro i hi
    cases hi
  · exact List.nodup_nil
  · show (50 : ℚ) + 25 + 5 * ((0 : ℕ) : ℚ) = 75
    norm_num

lemma invB_pairing (used : List ℕ) (s : SimState) (h : InvB used s) :
    InvB used (pairingCheck s).1 := by
  by_cases hq : (waitingIons s).length = 0 ∨ (waitingElectrons s).length = 0
  · rw [pairingCheck_no_pairs s hq]
    exact h
  · push_neg at hq
    rw [pairingCheck_pairs s (by omega) (by omega)]
    dsimp only
    obtain ⟨hshape, hnd, hmass⟩ := h
    have hndI : (s.ions.map Particle.id).Nodup := (List.nodup_append.1 hnd).1
    have hsubI : List.Sublist ((pairedState s).ions.map Particle.id)
        (s.ions.map Particle.id) := (List.filter_sublist _).map Particle.id
    have hsubE : List.Sublist ((pairedState s).electrons.map Particle.id)
        (s.electrons.map Particle.id) := (List.filter_sublist _).map Particle.id
    refine ⟨?_, ?_, ?_⟩
    · intro i hi
      apply hshape
      rcases List.mem_append.1 hi with hi | hi
      · exact List.mem_append.2 (Or.inl (hsubI.subset hi))
      · exact List.mem_append.2 (Or.inr (hsubE.subset hi))
    · exact List.Nodup.sublist (hsubI.append hsubE) hnd
    · show (pairedState s).anodeMass + (pairedState s).cathodeMass +
        MASS_PER_UNIT * ((pairedState s).ions.length : ℚ) = 75
      have hlen : (pairedState s).ions.length = s.ions.length - nPairs s :=
        pairedState_ions_length s hndI
      have hk : nPairs s ≤ s.ions.length :=
        (nPairs_le_ions s).trans (List.filter_sublist _).length_le
      have hanode : (pairedState s).anodeMass = s.anodeMass := rfl
      have hcath : (pairedState s).cathodeMass =
        s.cathodeMass + MASS_PER_UNIT * ((nPairs s : ℚ)) := rfl
      rw [hanode, hcath, hlen]
      unfold massTotal at hmass
      rw [Nat.cast_sub hk]
      unfold MASS_PER_UNIT at hmass ⊢
      ring_nf
      ring_nf at hmass
      linarith

lemma nodup_append_two (A B : List String) (a b : String) (hnd : (A ++ B).Nodup)
    (ha : a ∉ A ++ B) (hb : b ∉ A ++ B) (hab : a ≠ b) :
    ((A ++ [a]) ++ (B ++ [b])).Nodup := by
  rw [List.nodup_append] at hnd
  rw [List.mem_append] at ha hb
  rw [List.nodup_append, List.nodup_append, List.nodup_append]
  refine ⟨⟨hnd.1, List.nodup_singleton a, ?_⟩, ⟨hnd.2.1, List.nodup_singleton b, ?_⟩, ?_⟩
  · intro x hx hxa
    rw [List.mem_singleton] at hxa
    exact ha (Or.inl (hxa ▸ hx))
  · intro x hx hxb
    rw [List.mem_singleton] at hxb
    exact hb (Or.inr (hxb ▸ hx))
  · intro x hx hx'
    rw [List.mem_append, List.mem_singleton] at hx hx'
    rcases hx with hx | rfl
    · rcases hx' with hx' | rfl
      · exact hnd.2.2 hx hx'
      · exact hb (Or.inl hx)
    · rcases hx' with hx' | h
      · exact ha (Or.inr hx')
      · exact hab h

lemma nodup_append_snoc (A B : List String) (b : String) (hnd : (A ++ B).Nodup)
    (hb : b ∉ A ++ B) : (A ++ (B ++ [b])).Nodup := by
  rw [← List.append_assoc, List.nodup_append]
  refine ⟨hnd, List.nodup_singleton b, ?_⟩
  intro x hx hxb
  rw [List.mem_singleton] at hxb
  exact hb (hxb ▸ hx)

lemma invB_spawnIon (pts : List Point) (now : ℕ) (s : SimState) (used : List ℕ)
    (h : InvB used s) (hfresh : now ∉ used) :
    InvB (used ++ [now]) (spawnIon pts now s).2 := by
  by_cases h1 : s.isAnodeConnected = false ∨ s.isCathodeConnected = false
  · rw [spawnIon_not_connected pts now s h1]
    exact invB_mono used [now] s h
  · simp only [not_or, Bool.not_eq_false] at h1
    obtain ⟨hA, hC⟩ := h1
    by_cases h2 : s.anodeMass ≤ 10
    · rw [spawnIon_depleted pts now s hA hC h2]
      exact invB_mono used [now] s h
    · by_cases h3 : 5 ≤ activeCount s
      · rw [spawnIon_capacity pts now s hA hC h2 h3]
        exact invB_mono used [now] s h
      · rw [spawnIon_success pts now s hA hC h2 h3]
        obtain ⟨hshape, hnd, hmass⟩ := h
        have hIonFresh : mkIonId now ∉ allIds s :=
          fresh_not_mem used s hshape now hfresh _ (Or.inl rfl)
        have hAeFresh : mkAeId now ∉ allIds s :=
          fresh_not_mem used s hshape now hfresh _ (Or.inr (Or.inl rfl))
        have hids : allIds { s with
            ions := s.ions ++ [newIon now]
            electrons := s.electrons ++ [newAnodeElectron pts now]
            anodeMass := s.anodeMass - MASS_PER_UNIT } =
            (s.ions.map Particle.id ++ [mkIonId now]) ++
              (s.electrons.map Particle.id ++ [mkAeId now]) := by
          show (s.ions ++ [newIon now]).map Particle.id ++
            (s.electrons ++ [newAnodeElectron pts now]).map Particle.id = _
          rw [List.map_append, List.map_append]
          rfl
        refine ⟨?_, ?_, ?_⟩
        · intro i hi
          rw [hids] at hi
          rcases List.mem_append.1 hi with hi | hi
          · rcases List.mem_append.1 hi with hi | hi
            · obtain ⟨t, ht, hti⟩ := hshape i (List.mem_append.2 (Or.inl hi))
              exact ⟨t, List.mem_append.2 (Or.inl ht), hti⟩
            · rcases List.mem_singleton.1 hi with rfl
              exact ⟨now, List.mem_append.2 (Or.inr (List.mem_singleton.2 rfl)),
                Or.inl rfl⟩
          · rcases List.mem_append.1 hi with hi | hi
            · obtain ⟨t, ht, hti⟩ := hshape i (List.mem_append.2 (Or.inr hi))
              exact ⟨t, List.mem_append.2 (Or.inl ht), hti⟩
            · rcases List.mem_singleton.1 hi with rfl
              exact ⟨now, List.mem_append.2 (Or.inr (List.mem_singleton.2 rfl)),
                Or.inr (Or.inl rfl)⟩
        · rw [hids]
          exact nodup_append_two _ _ _ _ hnd hIonFresh hAeFresh
            (mkIonId_ne_mkAeId now now)
        · show s.anodeMass - MASS_PER_UNIT + s.cathodeMass +
            MASS_PER_UNIT * ((s.ions ++ [newIon now]).length : ℚ) = 75
          have hlen : (s.ions ++ [newIon now]).length = s.ions.length + 1 := by
            rw [List.length_append]
            rfl
          rw [hlen]
          unfold massTotal at hmass
          unfold MASS_PER_UNIT at hmass ⊢
          push_cast
          linarith

lemma invB_drag (env : Env) (i : String) (p : Point) (s : SimState) (used : List ℕ)
    (h : InvB used s) : InvB used (handleElectronDrag env i p s) := by
  cases hr : env.svgRect with
  | none =>
    rw [handleElectronDrag_eq_none env i p s hr]
    exact h
  | some r =>
    rw [handleElectronDrag_eq_some env i p s r hr]
    obtain ⟨hshape, hnd, hmass⟩ := h
    have hids : allIds { s with electrons := s.electrons.map (dragUpdater env i
        ((p.x - r.left) * (1000 / r.width)) ((p.y - r.top) * (600 / r.height))) } =
        allIds s := by
      show s.ions.map Particle.id ++ (s.electrons.map _).map Particle.id = _
      rw [List.map_map]
      congr 1
      exact List.map_congr_left (fun e _ => dragUpdater_id env i _ _ e)
    refine ⟨?_, ?_, ?_⟩
    · intro j hj
      exact hshape j (hids ▸ hj)
    · exact hids ▸ hnd
    · exact hmass

lemma invB_dragEnd (env : Env) (now : ℕ) (id : String) (s : SimState) (used : List ℕ)
    (h : InvB used s) (hfresh : now ∉ used) :
    InvB (used ++ [now]) (handleElectronDragEnd env now id s) := by
  cases hf : s.electrons.find? (fun x => x.id == id) with
  | none =>
    rw [handleElectronDragEnd_notFound env now id s hf]
    exact invB_mono used [now] s h
  | some e =>
    by_cases h1 : e.segment = some Segment.anode_wire ∧ (0.95 : ℚ) ≤ e.progress.getD 0
    · rw [handleElectronDragEnd_anode env now id s e hf h1.1 h1.2]
      obtain ⟨hshape, hnd, hmass⟩ := h
      have hCeFresh : mkCeId now ∉ allIds s :=
        fresh_not_mem used s hshape now hfresh _ (Or.inr (Or.inr rfl))
      have hsubE : List.Sublist ((s.electrons.filter (fun x => x.id != id)).map Particle.id)
          (s.electrons.map Particle.id) := (List.filter_sublist _).map Particle.id
      have hids : allIds
          { s with electrons := s.electrons.filter (fun x => x.id != id) ++ [newCathodeElectron env now] } =
          s.ions.map Particle.id ++
            ((s.electrons.filter (fun x => x.id != id)).map Particle.id ++ [mkCeId now]) := by
        show s.ions.map Particle.id ++ (_ ++ [newCathodeElectron env now]).map Particle.id = _
        rw [List.map_append]
        rfl
      have hsubIds : List.Sublist (s.ions.map Particle.id ++
          (s.electrons.filter (fun x => x.id != id)).map Particle.id) (allIds s) :=
        (List.Sublist.refl _).append hsubE
      refine ⟨?_, ?_, ?_⟩
      · intro j hj
        rw [hids] at hj
        rcases List.mem_append.1 hj with hj | hj
        · obtain ⟨t, ht, hti⟩ := hshape j (List.mem_append.2 (Or.inl hj))
          exact ⟨t, List.mem_append.2 (Or.inl ht), hti⟩
        · rcases List.mem_append.1 hj with hj | hj
          · obtain ⟨t, ht, hti⟩ := hshape j (List.mem_append.2 (Or.inr (hsubE.subset hj)))
            exact ⟨t, List.mem_append.2 (Or.inl ht), hti⟩
          · rcases List.mem_singleton.1 hj with rfl
            exact ⟨now, List.mem_append.2 (Or.inr (List.mem_singleton.2 rfl)),
              Or.inr (Or.inr rfl)⟩
      · rw [hids]
        apply nodup_append_snoc
        · exact List.Nodup.sublist hsubIds hnd
        · intro hc
          exact hCeFresh (hsubIds.subset hc)
      · exact hmass
    · by_cases h2 : e.segment = some Segment.cathode_wire ∧ (0.95 : ℚ) ≤ e.progress.getD 0
      · rw [handleElectronDragEnd_cathode env now id s e hf h2.1 h2.2]
        obtain ⟨hshape, hnd, hmass⟩ := h
        have hids : allIds { s with electrons := s.electrons.map (fun x =>
            if x.id == id then { x with status := PStatus.waiting, progress := some 1 }
            else x) } = allIds s := by
          show s.ions.map Particle.id ++ (s.electrons.map _).map Particle.id = _
          rw [List.map_map]
          congr 1
          apply List.map_congr_left
          intro x _
          show (if (x.id == id) = true then
            { x with status := PStatus.waiting, progress := some 1 } else x).id = x.id
          split <;> rfl
        refine invB_mono used [now] _ ⟨?_, ?_, ?_⟩
        · intro j hj
          exact hshape j (hids ▸ hj)
        · exact hids ▸ hnd
        · exact hmass
      · rw [handleElectronDragEnd_noop env now id s e hf h1 h2]
        exact invB_mono used [now] s h

lemma invB_ionDragEnd (env : Env) (id : String) (p : Point) (s : SimState) (used : List ℕ)
    (h : InvB used s) : InvB used (handleIonDragEnd env id p s).2 := by
  obtain ⟨hshape, hnd, hmass⟩ := h
  by_cases hb : optTest (fun b => outsideRect b p) (getElectrolyteBounds env.beakerRect) = true
  · rw [handleIonDragEnd_outOfBounds env id p s hb]
    exact ⟨hshape, hnd, hmass⟩
  · rw [Bool.not_eq_true] at hb
    by_cases hc : optTest (fun c => insideRect c p) env.cathodeRect = true
    · cases hw : s.electrons.any isWaiting
      · rw [handleIonDragEnd_noWaiting env id p s hb hc hw]
        exact ⟨hshape, hnd, hmass⟩
      · rw [handleIonDragEnd_accepted env id p s hb hc hw]
        have hids : allIds { s with ions := s.ions.map (fun q =>
            if q.id == id then { q with status := PStatus.waiting } else q) } = allIds s := by
          show (s.ions.map _).map Particle.id ++ s.electrons.map Particle.id = _
          rw [List.map_map]
          congr 1
          apply List.map_congr_left
          intro x _
          show (if (x.id == id) = true then { x with status := PStatus.waiting } else x).id
            = x.id
          split <;> rfl
        refine ⟨?_, ?_, ?_⟩
        · intro j hj
          exact hshape j (hids ▸ hj)
        · exact hids ▸ hnd
        · show s.anodeMass + s.cathodeMass + MASS_PER_UNIT * ((s.ions.map _).length : ℚ) = 75
          rw [List.length_map]
          exact hmass
    · rw [Bool.not_eq_true] at hc
      rw [handleIonDragEnd_ignored env id p s hb hc]
      exact ⟨hshape, hnd, hmass⟩

/-- Timestamps an event consumes, as a list. -/
def stampsOf (e : Event) : List ℕ := e.stamp.toList

lemma invB_step (env : Env) (e : Event) (s : SimState) (used : List ℕ)
    (h : InvB used s) (hfresh : ∀ t, e.stamp = some t → t ∉ used) :
    InvB (used ++ stampsOf e) (step env s e) := by
  cases e with
  | spawn now =>
    exact invB_pairing _ _ (invB_spawnIon env.anodeWirePoints now s used h (hfresh now rfl))
  | electronDrag id p =>
    show InvB (used ++ []) _
    rw [List.append_nil]
    exact invB_pairing _ _ (invB_drag env id p s used h)
  | electronDragEnd id now =>
    exact invB_pairing _ _ (invB_dragEnd env now id s used h (hfresh now rfl))
  | ionDragEnd id p =>
    show InvB (used ++ []) _
    rw [List.append_nil]
    exact invB_pairing _ _ (invB_ionDragEnd env id p s used h)
  | connectAnode =>
    show InvB (used ++ []) _
    rw [List.append_nil]
    exact h
  | connectCathode =>
    show InvB (used ++ []) _
    rw [List.append_nil]
    exact h
  | restart =>
    show InvB (used ++ []) _
    rw [List.append_nil]
    exact invB_restart used s

lemma traceStamps_cons (a : Env × Event) (t : List (Env × Event)) :
    traceStamps (a :: t) = stampsOf a.2 ++ traceStamps t := by
  unfold traceStamps stampsOf
  rw [List.filterMap_cons]
  cases a.2.stamp <;> rfl

lemma invB_run_aux (trace : List (Env × Event)) : ∀ (used : List ℕ) (s : SimState),
    InvB used s → (used ++ traceStamps trace).Nodup →
    InvB (used ++ traceStamps trace) (trace.foldl stepE s) := by
  induction trace with
  | nil =>
    intro used s h _
    simpa [traceStamps] using h
  | cons a t ih =>
    intro used s h hnd
    rw [traceStamps_cons, ← List.append_assoc] at hnd ⊢
    have hfresh : ∀ tt, a.2.stamp = some tt → tt ∉ used := by
      intro tt hstamp hmem
      have h1 : (used ++ stampsOf a.2).Nodup :=
        List.Nodup.sublist (List.sublist_append_left _ _) hnd
      rw [List.nodup_append] at h1
      apply h1.2.2 hmem
      simp [stampsOf, hstamp]
    exact ih (used ++ stampsOf a.2) (stepE s a) (invB_step a.1 a.2 s used h hfresh) hnd

lemma invB_run (trace : List (Env × Event)) (h : (traceStamps trace).Nodup) :
    InvB (traceStamps trace) (run trace) := by
  have key := invB_run_aux trace [] initState invB_init (by simpa using h)
  simpa using key

/-!
Concrete states and traces used by the witnesses.
-/

/-- Five active ions, circuit complete: the registry is exactly at the
spawn gate's threshold. -/
def fiveActiveState : SimState :=
  { initState with
      ions := [newIon 0, newIon 1, newIon 2, newIon 3, newIon 4]
      isAnodeConnected := true
      isCathodeConnected := true }

/-- One waiting ion and one waiting electron, ready to pair. -/
def wexState : SimState :=
  { initState with
      anodeMass := 45
      ions := [{ id := mkIonId 0, type := PType.ion, x := 0, y := 0
                 status := PStatus.waiting }]
      electrons := [{ id := mkCeId 1, type := PType.cathode_electron, x := 0, y := 50
                      status := PStatus.waiting, segment := some Segment.cathode_wire
                      progress := some 1 }]
      isAnodeConnected := true
      isCathodeConnected := true }

/-- Anode at the depletion threshold with the circuit still open. -/
def openDepletedState : SimState := { initState with anodeMass := 10 }

/-- Anode at the depletion threshold with the circuit complete. -/
def connectedDepletedState : SimState :=
  { initState with
      anodeMass := 10
      isAnodeConnected := true
      isCathodeConnected := true }

/-- An anode-wire electron dragged to the end of its path. -/
def c5Electron : Particle :=
  { id := mkAeId 0, type := PType.anode_electron, x := 100, y := 0
    status := PStatus.active, segment := some Segment.anode_wire, progress := some 1 }

def c5State : SimState :=
  { initState with
      electrons := [c5Electron]
      isAnodeConnected := true
      isCathodeConnected := true }

/-- A cathode-wire electron already parked in `waiting` at progress 1. -/
def c8Electron : Particle :=
  { id := mkCeId 1, type := PType.cathode_electron, x := 100, y := 50
    status := PStatus.waiting, segment := some Segment.cathode_wire, progress := some 1 }

def c8State : SimState := { initState with electrons := [c8Electron] }

/-- Connect both wires, then two spawns at distinct timestamps. -/
def wTrace : List (Env × Event) :=
  [(env0, Event.connectAnode), (env0, Event.connectCathode),
   (env0, Event.spawn 1), (env0, Event.spawn 2)]

/-!
The claims.
-/

/-- Claim C1, counterexample: the claim says at most 5 particles are
ever `active` in a reachable state, but after connecting both wires and
three successful `spawnIon` calls (each inserting an ion AND an anode
electron while the gate only requires fewer than 5 actives beforehand)
the reachable state has 6 active particles. -/
theorem active_cap_five_counterexample :
    activeCount (run c1Trace) = 6 ∧ ¬(activeCount (run c1Trace) ≤ 5) := by
  constructor <;> decide

/-- Claim C1, amended: the gate rejects a spawn once 5 or more particles
are active (with no mutation), and since a successful spawn starts from
at most 4 actives and adds two, every reachable state has at most 6 —
not 5 — active particles. -/
theorem active_cap_six (trace : List (Env × Event)) (pts : List Point) (now : ℕ)
    (s : SimState) (hcap : 5 ≤ activeCount s) :
    activeCount (run trace) ≤ 6 ∧
    (spawnIon pts now s).1 ≠ SpawnOutcome.ok ∧ (spawnIon pts now s).2 = s :=
  ⟨(invA_run trace).2.2, (spawnIon_cap_reject pts now s hcap).1,
    (spawnIon_cap_reject pts now s hcap).2⟩

/-- Witness for `active_cap_six` at the empty trace and a concrete
five-active state. -/
theorem active_cap_six_witness :
    5 ≤ activeCount fiveActiveState ∧
    (activeCount (run []) ≤ 6 ∧
      (spawnIon [] 7 fiveActiveState).1 ≠ SpawnOutcome.ok ∧
      (spawnIon [] 7 fiveActiveState).2 = fiveActiveState) :=
  ⟨by decide, active_cap_six [] [] 7 fiveActiveState (by decide)⟩

/-- Claim C2, counterexample: the "complete" signal is supposed to fire
exactly once per run, but along the 7-cycle trace it fires twice — once
when `platedCount` reaches the goal 6 and again on the 7th pairing batch
(`newCount >= TOTAL_PLATING_GOAL` has no once-only guard). -/
theorem complete_signal_double_fire :
    runEmitCount c2Trace = 2 ∧ (run c2Trace).platedCount = 7 := by
  constructor <;> decide

/-- Claim C2, amended: the pairing effect emits the complete signal on
every batch whose updated `platedCount` is at or above the goal; there
is no guard suppressing re-emission after the goal has been reached, so
later batches (reachable, since up to 8 ions can be plated) re-fire. -/
theorem complete_signal_condition (s : SimState) :
    ((pairingCheck s).2 = true) ↔
      (0 < (waitingIons s).length ∧ 0 < (waitingElectrons s).length ∧
        TOTAL_PLATING_GOAL ≤ s.platedCount + nPairs s) := by
  by_cases hq : (waitingIons s).length = 0 ∨ (waitingElectrons s).length = 0
  · rw [pairingCheck_no_pairs s hq]
    dsimp only
    constructor
    · intro hc
      exact absurd hc (by simp)
    · intro h
      exfalso
      rcases h with ⟨h1, h2, _⟩
      omega
  · push_neg at hq
    rw [pairingCheck_pairs s (by omega) (by omega)]
    dsimp only
    rw [decide_eq_true_eq]
    constructor
    · intro h3
      exact ⟨by omega, by omega, h3⟩
    · intro h
      exact h.2.2

/-- Claim C3: immediately after the pairing check, the shorter waiting
queue is empty; when ids are distinct the batch removes exactly the
first `pairs` waiting ions and electrons (in arrival order, in one
atomic state update), credits the cathode `pairs × 5`, and bumps
`platedCount` by `pairs`; the anode is untouched. -/
theorem pairing_batch_spec (s : SimState)
    (hni : (s.ions.map Particle.id).Nodup)
    (hne : (s.electrons.map Particle.id).Nodup) :
    min (waitingIons (pairingCheck s).1).length
      (waitingElectrons (pairingCheck s).1).length = 0 ∧
    (pairingCheck s).1.ions =
      s.ions.filter (fun p => decide (p ∉ (waitingIons s).take (nPairs s))) ∧
    (pairingCheck s).1.electrons =
      s.electrons.filter (fun p => decide (p ∉ (waitingElectrons s).take (nPairs s))) ∧
    (pairingCheck s).1.cathodeMass = s.cathodeMass + MASS_PER_UNIT * ((nPairs s : ℚ)) ∧
    (pairingCheck s).1.platedCount = s.platedCount + nPairs s ∧
    (pairingCheck s).1.anodeMass = s.anodeMass := by
  refine ⟨pairingCheck_min_zero s, ?_⟩
  by_cases hq : (waitingIons s).length = 0 ∨ (waitingElectrons s).length = 0
  · rw [pairingCheck_no_pairs s hq]
    have hp0 : nPairs s = 0 := by
      unfold nPairs
      omega
    rw [hp0]
    refine ⟨?_, ?_, by push_cast; ring, by show s.platedCount = s.platedCount + 0; omega, rfl⟩
    · rw [List.take_zero, List.filter_eq_self.2 (fun a _ => by simp)]
    · rw [List.take_zero, List.filter_eq_self.2 (fun a _ => by simp)]
  · push_neg at hq
    rw [pairingCheck_pairs s (by omega) (by omega)]
    dsimp only
    exact ⟨pairedState_ions s hni, pairedState_electrons s hne, rfl, rfl, rfl⟩

/-- Witness for `pairing_batch_spec` on a concrete one-pair state. -/
theorem pairing_batch_spec_witness :
    (wexState.ions.map Particle.id).Nodup ∧
    (wexState.electrons.map Particle.id).Nodup ∧
    (pairingCheck wexState).1.platedCount = wexState.platedCount + nPairs wexState ∧
    (pairingCheck wexState).1.cathodeMass =
      wexState.cathodeMass + MASS_PER_UNIT * ((nPairs wexState : ℚ)) :=
  ⟨by decide, by decide,
    (pairing_batch_spec wexState (by decide) (by decide)).2.2.2.2.1,
    (pairing_batch_spec wexState (by decide) (by decide)).2.2.2.1⟩

/-- Claim C4, counterexample: the claim says every state with
`anodeMass ≤ 10` fails with the `AnodeDepleted` condition, but with the
circuit open the call fails with `CircuitNotComplete` instead (the
circuit check runs first); the call is still a no-op. -/
theorem spawn_depleted_counterexample :
    openDepletedState.anodeMass ≤ 10 ∧
    (spawnIon [] 0 openDepletedState).1 = SpawnOutcome.circuitNotComplete ∧
    (spawnIon [] 0 openDepletedState).1 ≠ SpawnOutcome.anodeDepleted ∧
    (spawnIon [] 0 openDepletedState).2 = openDepletedState := by
  refine ⟨by decide, by decide, by decide, by decide⟩

/-- Claim C4, amended: with the circuit complete, `anodeMass ≤ 10` fails
with `AnodeDepleted` as a strict no-op (an open circuit fails earlier
with `CircuitNotComplete`, also a no-op); on success (circuit complete,
mass above threshold, fewer than 5 actives) the anode loses exactly
`MASS_PER_UNIT = 5` and exactly one active ion plus one active
anode-wire electron with progress 0 are appended. -/
theorem spawnIon_spec (pts : List Point) (now : ℕ) (s : SimState) :
    (s.isAnodeConnected = false ∨ s.isCathodeConnected = false →
      spawnIon pts now s = (SpawnOutcome.circuitNotComplete, s)) ∧
    (s.isAnodeConnected = true → s.isCathodeConnected = true → s.anodeMass ≤ 10 →
      spawnIon pts now s = (SpawnOutcome.anodeDepleted, s)) ∧
    (s.isAnodeConnected = true → s.isCathodeConnected = true → 10 < s.anodeMass →
      5 ≤ activeCount s → spawnIon pts now s = (SpawnOutcome.capacityExceeded, s)) ∧
    (s.isAnodeConnected = true → s.isCathodeConnected = true → 10 < s.anodeMass →
      activeCount s < 5 →
      spawnIon pts now s =
        (SpawnOutcome.ok,
          { s with
              ions := s.ions ++ [newIon now]
              electrons := s.electrons ++ [newAnodeElectron pts now]
              anodeMass := s.anodeMass - MASS_PER_UNIT })) := by
  refine ⟨spawnIon_not_connected pts now s, ?_, ?_, ?_⟩
  · intro hA hC hm
    exact spawnIon_depleted pts now s hA hC hm
  · intro hA hC hm hcap
    exact spawnIon_capacity pts now s hA hC (not_le.2 hm) hcap
  · intro hA hC hm hcap
    exact spawnIon_success pts now s hA hC (not_le.2 hm) (not_le.2 hcap)

/-- Witness for `spawnIon_spec`: the depleted branch on a concrete state
with the circuit complete and `anodeMass = 10`. -/
theorem spawnIon_spec_witness :
    connectedDepletedState.isAnodeConnected = true ∧
    connectedDepletedState.anodeMass ≤ 10 ∧
    spawnIon [] 3 connectedDepletedState =
      (SpawnOutcome.anodeDepleted, connectedDepletedState) :=
  ⟨rfl, by decide, (spawnIon_spec [] 3 connectedDepletedState).2.1 rfl rfl (by decide)⟩

/-- Claim C5: drag-end on an electron: a missing electron is a no-op; an
anode-wire electron at progress ≥ 0.95 is removed and replaced by a
fresh cathode-wire electron at progress 0 positioned at the cathode
path's origin (see `newCathodeElectron`) whose id is distinct from the
removed `ae-` id; a cathode-wire electron at progress ≥ 0.95 turns
`waiting` with progress clamped to 1; anything else changes nothing. -/
theorem completeElectronDrag_spec (env : Env) (now : ℕ) (id : String) (s : SimState) :
    (s.electrons.find? (fun x => x.id == id) = none →
      handleElectronDragEnd env now id s = s) ∧
    ∀ e, s.electrons.find? (fun x => x.id == id) = some e →
      ((e.segment = some Segment.anode_wire ∧ (0.95 : ℚ) ≤ e.progress.getD 0 →
        handleElectronDragEnd env now id s =
          { s with electrons := s.electrons.filter (fun x => x.id != id) ++
              [newCathodeElectron env now] } ∧
        (∀ n, e.id = mkAeId n → (newCathodeElectron env now).id ≠ e.id)) ∧
      (e.segment = some Segment.cathode_wire ∧ (0.95 : ℚ) ≤ e.progress.getD 0 →
        handleElectronDragEnd env now id s =
          { s with electrons := s.electrons.map (fun x =>
              if x.id == id then { x with status := PStatus.waiting, progress := some 1 }
              else x) }) ∧
      (¬(e.segment = some Segment.anode_wire ∧ (0.95 : ℚ) ≤ e.progress.getD 0) →
       ¬(e.segment = some Segment.cathode_wire ∧ (0.95 : ℚ) ≤ e.progress.getD 0) →
        handleElectronDragEnd env now id s = s)) := by
  refine ⟨handleElectronDragEnd_notFound env now id s, ?_⟩
  intro e hf
  refine ⟨?_, ?_, ?_⟩
  · intro h1
    refine ⟨handleElectronDragEnd_anode env now id s e hf h1.1 h1.2, ?_⟩
    intro n hn
    show mkCeId now ≠ e.id
    rw [hn]
    exact (mkAeId_ne_mkCeId n now).symm
  · intro h2
    exact handleElectronDragEnd_cathode env now id s e hf h2.1 h2.2
  · intro h1 h2
    exact handleElectronDragEnd_noop env now id s e hf h1 h2

/-- Witness for `completeElectronDrag_spec`: the anode hand-off on a
concrete electron at progress 1. -/
theorem completeElectronDrag_spec_witness :
    c5State.electrons.find? (fun x => x.id == mkAeId 0) = some c5Electron ∧
    handleElectronDragEnd env0 9 (mkAeId 0) c5State =
      { c5State with electrons := c5State.electrons.filter (fun x => x.id != mkAeId 0) ++
          [newCathodeElectron env0 9] } :=
  ⟨by decide,
    (((completeElectronDrag_spec env0 9 (mkAeId 0) c5State).2 c5Electron (by decide)).1
      ⟨rfl, by decide⟩).1⟩

/-- Claim C6: electron progress is non-decreasing under any sequence of
drag updates; the drag resolver returns at least the current progress
(`max currentProgress bestCandidate`), and drag updates never change an
electron's identity, segment, or status. -/
theorem drag_progress_monotone (env : Env) (ds : List (String × Point)) (s : SimState)
    (j : String) :
    progressOf s j ≤ progressOf (applyDrags env ds s) j ∧
    (applyDrags env ds s).electrons.map (fun e => (e.id, e.segment, e.status)) =
      s.electrons.map (fun e => (e.id, e.segment, e.status)) ∧
    ∀ pts dragX dragY cur, cur ≤ getProgressFromDrag pts dragX dragY cur :=
  ⟨applyDrags_progress_mono env ds s j, applyDrags_proj env ds s,
    fun pts dragX dragY cur => getProgressFromDrag_ge pts dragX dragY cur⟩

/-- Claim C7: an ion dropped outside the electrolyte bounds only bumps
the presentation reset key (returning the ion to its origin) and
mutates nothing else; a drop on the cathode with a waiting electron
turns the ion `waiting`; a drop on the cathode without a waiting
electron is rejected with no state change. -/
theorem dropIon_spec (env : Env) (id : String) (p : Point) (s : SimState) :
    (optTest (fun b => outsideRect b p) (getElectrolyteBounds env.beakerRect) = true →
      handleIonDragEnd env id p s =
        (IonDropOutcome.outOfBounds, { s with ionResetKey := s.ionResetKey + 1 })) ∧
    (optTest (fun b => outsideRect b p) (getElectrolyteBounds env.beakerRect) = false →
      optTest (fun c => insideRect c p) env.cathodeRect = true →
      ((s.electrons.any isWaiting = true →
        handleIonDragEnd env id p s =
          (IonDropOutcome.accepted, { s with ions := s.ions.map (fun q =>
            if q.id == id then { q with status := PStatus.waiting } else q) })) ∧
       (s.electrons.any isWaiting = false →
        handleIonDragEnd env id p s = (IonDropOutcome.noWaitingElectron, s)))) := by
  refine ⟨handleIonDragEnd_outOfBounds env id p s, ?_⟩
  intro hb hc
  exact ⟨handleIonDragEnd_accepted env id p s hb hc,
    handleIonDragEnd_noWaiting env id p s hb hc⟩

/-- Witness for `dropIon_spec`: a drop at the origin, outside the
electrolyte bounds of `env0`. -/
theorem dropIon_spec_witness :
    optTest (fun b => outsideRect b (⟨0, 0⟩ : Point))
      (getElectrolyteBounds env0.beakerRect) = true ∧
    handleIonDragEnd env0 (mkIonId 0) ⟨0, 0⟩ initState =
      (IonDropOutcome.outOfBounds, { initState with ionResetKey := initState.ionResetKey + 1 }) :=
  ⟨by decide, (dropIon_spec env0 (mkIonId 0) ⟨0, 0⟩ initState).1 (by decide)⟩

/-- Claim C8: a second `completeElectronDrag` on an electron that is
already `waiting` on the cathode wire at progress 1 changes nothing:
the state after the call equals the state before it. -/
theorem completeElectronDrag_idempotent (env : Env) (now : ℕ) (id : String) (s : SimState)
    (e : Particle) (hnd : (s.electrons.map Particle.id).Nodup) (he : e ∈ s.electrons)
    (hid : e.id = id) (hseg : e.segment = some Segment.cathode_wire)
    (hst : e.status = PStatus.waiting) (hpr : e.progress = some 1) :
    handleElectronDragEnd env now id s = s := by
  have hf : s.electrons.find? (fun x => x.id == id) = some e :=
    find?_eq_of_nodup _ e id hnd he hid
  rw [handleElectronDragEnd_cathode env now id s e hf hseg (by rw [hpr]; norm_num)]
  have hmap : s.electrons.map (fun x =>
      if x.id == id then { x with status := PStatus.waiting, progress := some 1 }
      else x) = s.electrons := by
    have hpt : ∀ x ∈ s.electrons,
        (if x.id == id then { x with status := PStatus.waiting, progress := some 1 }
         else x) = x := by
      intro x hx
      by_cases hxid : (x.id == id) = true
      · rw [if_pos hxid]
        have hxe : x = e := eq_of_id_eq_of_nodup _ hnd x e hx he
          (by rw [beq_iff_eq.1 hxid, hid])
        subst hxe
        show ({ x with status := PStatus.waiting, progress := some 1 } : Particle) = x
        rw [← hst, ← hpr]
      · rw [if_neg hxid]
    exact (List.map_congr_left hpt).trans (List.map_id _)
  rw [hmap]

/-- Witness for `completeElectronDrag_idempotent` on a concrete
already-waiting electron. -/
theorem completeElectronDrag_idempotent_witness :
    c8Electron ∈ c8State.electrons ∧
    c8Electron.status = PStatus.waiting ∧
    handleElectronDragEnd env0 5 (mkCeId 1) c8State = c8State :=
  ⟨by decide, rfl,
    completeElectronDrag_idempotent env0 5 (mkCeId 1) c8State c8Electron
      (by decide) (by decide) rfl rfl rfl rfl⟩

/-- Claim C9, counterexample: two `spawnIon` calls served by the same
`Date.now()` millisecond mint the same ion id twice — the registry holds
two live ions both named `ion-0`, so ids are not unique for every
behaviour of the timestamp source. -/
theorem ids_collide_counterexample :
    (run c9Trace).ions.map Particle.id = [mkIonId 0, mkIonId 0] ∧
    ¬(allIds (run c9Trace)).Nodup := by
  constructor <;> decide

/-- Claim C9, amended: if the timestamp source never repeats across a
run (each spawn and each hand-off sees a fresh `Date.now()` value), all
live particle ids are pairwise distinct in every reachable state. -/
theorem ids_unique_of_distinct_stamps (trace : List (Env × Event))
    (h : (traceStamps trace).Nodup) : (allIds (run trace)).Nodup :=
  (invB_run trace h).2.1

/-- Witness for `ids_unique_of_distinct_stamps` on a concrete
two-spawn trace with distinct timestamps. -/
theorem ids_unique_of_distinct_stamps_witness :
    (traceStamps wTrace).Nodup ∧ (allIds (run wTrace)).Nodup :=
  ⟨by decide, ids_unique_of_distinct_stamps wTrace (by decide)⟩

/-- Claim C10, counterexample: with a repeated timestamp the pairing
filter deletes both same-id ions while crediting the cathode once, so
the conserved sum `anodeMass + cathodeMass + 5 × live ions` drops from
75 to 70 on a reachable trace. -/
theorem mass_not_conserved_counterexample :
    massTotal (run c10Trace) = 70 ∧ massTotal (run c10Trace) ≠ 75 := by
  constructor <;> decide

/-- Claim C10, amended: if the timestamp source never repeats across a
run, every reachable state satisfies
`anodeMass + cathodeMass + 5 × (number of live ions) = 75`. -/
theorem mass_conserved_of_distinct_stamps (trace : List (Env × Event))
    (h : (traceStamps trace).Nodup) : massTotal (run trace) = 75 :=
  (invB_run trace h).2.2

/-- Witness for `mass_conserved_of_distinct_stamps` on a concrete
two-spawn trace with distinct timestamps. -/
theorem mass_conserved_of_distinct_stamps_witness :
    (traceStamps wTrace).Nodup ∧ massTotal (run wTrace) = 75 :=
  ⟨by decide, mass_conserved_of_distinct_stamps wTrace (by decide)⟩

end ElectroPlate
